import Mathlib

/-! # BIOS boot logic (`litex/soc/software/bios/boot.c`)

A shallow embedding of `boot`, `check_ack`, `serialboot` and `flashboot`,
followed by the properties of the serial and flash boot paths.

Modelling conventions.

* A byte (`char`, `unsigned char`) is a `Fin 256`.
* The machine around the code is a `World`: the bytes the UART will still
  deliver, the byte-addressed memory, and the trace of observable actions
  (diagnostics, bytes sent, stores, the steps of the handoff), oldest first.
* `uart_read()` blocks: when no byte is left the caller is `stalled` for ever.
* The countdown timer of `check_ack` is represented by the list of polls the
  loop makes before the timer reads zero; each poll either finds a byte
  (`some c`) or finds none (`none`).
* `sfl.h`, `crc16` and the platform configuration are not part of this file of
  the repository: the constants and the checksum function are the fields of
  `Config`.
* The local `struct sfl_frame frame` keeps its bytes from one loop iteration to
  the next; it is part of the loop state.  It is assumed not to overlap the
  memory a `Load` command writes.
-/

namespace Boot

/-- An 8-bit character. -/
abbrev Byte := Fin 256

/-- Constants of `sfl.h`, the checksum function of `crc.h` and the build
configuration, none of which is defined in `boot.c`. -/
structure Config where
  /-- The characters of `SFL_MAGIC_REQ`, the request magic. -/
  SFL_MAGIC_REQ : List Byte
  /-- The array `str[SFL_MAGIC_LEN]` of `check_ack`, holding `SFL_MAGIC_ACK`. -/
  SFL_MAGIC_ACK : List Byte
  SFL_CMD_ABORT : Byte
  SFL_CMD_LOAD : Byte
  SFL_CMD_JUMP : Byte
  SFL_ACK_SUCCESS : Byte
  SFL_ACK_CRCERROR : Byte
  SFL_ACK_UNKNOWN : Byte
  /-- The value of `crc16(buffer, len)` as a function of the `len` bytes at `buffer`. -/
  crc16 : List Byte → Nat
  /-- Width in bits of `unsigned long` and of a data pointer. -/
  ptr_bits : Nat
  /-- Whether `__vexriscv__` is defined. -/
  vexriscv : Bool
  /-- Whether `CONFIG_L2_SIZE` is defined. -/
  l2_cache : Bool

/-- The diagnostics printed by `boot`, `serialboot` and `flashboot`. -/
inductive Msg where
  /-- Text `"Executing booted program at 0x%08x\n"`. -/
  | executing (addr : Nat)
  /-- Text `"--============= Liftoff! ===============--\n"`. -/
  | liftoff
  /-- Text `"Booting from serial...\n"`. -/
  | booting_from_serial
  /-- Text `"Press Q or ESC to abort boot completely.\n"`. -/
  | press_q_or_esc
  /-- Text `"Timeout\n"`. -/
  | timeout
  /-- Text `"Cancelled\n"`. -/
  | cancelled
  /-- Text `"Too many consecutive errors, aborting"`. -/
  | too_many_errors
  /-- Text `"Booting from flash...\n"`. -/
  | booting_from_flash
  /-- Text `"Error: Invalid flash boot image length 0x%08x\n"`. -/
  | invalid_length (length : Nat)
  /-- Text `"Loading %d bytes from flash...\n"`. -/
  | loading (length : Nat)
  /-- Text `"CRC failed (expected %08x, got %08x)\n"`. -/
  | crc_failed (crc got_crc : Nat)
  deriving DecidableEq, Repr

/-- Observable actions. -/
inductive Event where
  | printf (m : Msg)
  | uart_write (c : Byte)
  /-- A byte stored through `writepointer`. -/
  | store (addr : Nat) (c : Byte)
  | uart_sync
  | irq_setmask (mask : Nat)
  | irq_setie (ie : Nat)
  | flush_cpu_icache
  | flush_cpu_dcache
  | flush_l2_cache
  | boot_helper (r1 r2 r3 addr : Nat)
  /-- A call `memcpy(dst, src, n)`. -/
  | memcpy (dst src n : Nat)
  /-- A call `crc32(addr, n)`. -/
  | crc32 (addr n : Nat)
  deriving DecidableEq, Repr

/-- The machine state the boot code acts on. -/
structure World where
  /-- Bytes the UART will deliver to `uart_read`, next one first. -/
  rx : List Byte
  /-- Byte-addressed memory. -/
  mem : Nat → Byte
  /-- Actions performed so far, oldest first. -/
  trace : List Event

/-- Append one action to the trace. -/
def World.emit (w : World) (e : Event) : World :=
  { w with trace := w.trace ++ [e] }

def printf (m : Msg) (w : World) : World := w.emit (.printf m)

def uart_write (c : Byte) (w : World) : World := w.emit (.uart_write c)

/-- Blocking read of one byte; `none` when the line stays silent for ever. -/
def uart_read (w : World) : Option (Byte × World) :=
  match w.rx with
  | [] => none
  | c :: rest => some (c, { w with rx := rest })

/-- The store `*writepointer = c`. -/
def poke (addr : Nat) (c : Byte) (w : World) : World :=
  { w with
    mem := fun a => if a = addr then c else w.mem a
    trace := w.trace ++ [.store addr c] }

/-- The function `boot(r1, r2, r3, addr)` up to and including the call of `boot_helper`;
the function does not return. -/
def boot (cfg : Config) (r1 r2 r3 addr : Nat) (w : World) : World :=
  let w := printf (.executing addr) w
  let w := printf .liftoff w
  let w := w.emit .uart_sync
  let w := w.emit (.irq_setmask 0)
  let w := w.emit (.irq_setie 0)
  let w := if cfg.vexriscv then w else w.emit .flush_cpu_icache
  let w := w.emit .flush_cpu_dcache
  let w := if cfg.l2_cache then w.emit .flush_l2_cache else w
  w.emit (.boot_helper r1 r2 r3 addr)

/-- The anonymous `enum` of handshake results. -/
inductive AckStatus where
  | ACK_TIMEOUT
  | ACK_CANCELLED
  | ACK_OK
  deriving DecidableEq, Repr

/-- The `while(timer0_value_read())` loop of `check_ack`, one list element per
iteration.  Returns the status and the polls that were not made. -/
def check_ack_loop (str : List Byte) : Nat → List (Option Byte) → AckStatus × List (Option Byte)
  | _, [] => (.ACK_TIMEOUT, [])
  | recognized, none :: polls => check_ack_loop str recognized polls
  | recognized, some c :: polls =>
    if c = 81 ∨ c = 27 then (.ACK_CANCELLED, polls)
    else if str[recognized]? = some c then
      if recognized + 1 = str.length then (.ACK_OK, polls)
      else check_ack_loop str (recognized + 1) polls
    else if str[0]? = some c then check_ack_loop str 1 polls
    else check_ack_loop str 0 polls

/-- The function `check_ack()` for the acknowledgment magic `str`. -/
def check_ack (str : List Byte) (polls : List (Option Byte)) : AckStatus × List (Option Byte) :=
  check_ack_loop str 0 polls

def MAX_FAILED : Nat := 5

/-- The local `struct sfl_frame`. -/
structure Frame where
  length : Byte
  crc0 : Byte
  crc1 : Byte
  cmd : Byte
  payload : Nat → Byte

/-- The loop `for(i=0;i<frame.length;i++) frame.payload[i] = uart_read();` with `todo`
iterations left. -/
def read_payload : Nat → Nat → (Nat → Byte) → World → Option ((Nat → Byte) × World)
  | 0, _, payload, w => some (payload, w)
  | todo + 1, i, payload, w =>
    match uart_read w with
    | none => none
    | some (c, w) => read_payload todo (i + 1) (fun j => if j = i then c else payload j) w

/-- The part "Grab one frame": the five reads at the head of the loop body. -/
def grab_frame (frame : Frame) (w : World) : Option (Frame × World) :=
  match uart_read w with
  | none => none
  | some (length, w) =>
  match uart_read w with
  | none => none
  | some (crc0, w) =>
  match uart_read w with
  | none => none
  | some (crc1, w) =>
  match uart_read w with
  | none => none
  | some (cmd, w) =>
  match read_payload length.val 0 frame.payload w with
  | none => none
  | some (payload, w) => some ({ length := length, crc0 := crc0, crc1 := crc1, cmd := cmd, payload := payload }, w)

/-- The address held in payload bytes 0 to 3, as an `unsigned long`. -/
def decode_addr (cfg : Config) (payload : Nat → Byte) : Nat :=
  (((payload 0).val <<< 24) ||| ((payload 1).val <<< 16) ||| ((payload 2).val <<< 8)
    ||| ((payload 3).val <<< 0)) % 2 ^ cfg.ptr_bits

/-- The loop `for(i=4;i<frame.length;i++) *(writepointer++) = frame.payload[i];` with
`todo` iterations left. -/
def load_loop (cfg : Config) (payload : Nat → Byte) : Nat → Nat → Nat → World → World
  | 0, _, _, w => w
  | todo + 1, i, writepointer, w =>
    load_loop cfg payload todo (i + 1) ((writepointer + 1) % 2 ^ cfg.ptr_bits)
      (poke writepointer (payload i) w)

/-- What one iteration of `while(1)` in `serialboot` leads to, and where
`serialboot` ends. -/
inductive Step where
  /-- The loop goes on to its next iteration. -/
  | running (failed : Nat) (frame : Frame) (w : World)
  /-- The function returned `r`. -/
  | returned (r : Int) (w : World)
  /-- Control was handed over by `boot`, which does not return. -/
  | handoff (w : World)
  /-- Blocked in `uart_read` for ever. -/
  | stalled (w : World)

/-- The body of the loop after the frame is read: "Check CRC" and the
`switch`. -/
def dispatch (cfg : Config) (failed : Nat) (frame : Frame) (w : World) : Step :=
  let actualcrc := (frame.crc0.val <<< 8) ||| frame.crc1.val
  let goodcrc := cfg.crc16 (frame.cmd :: (List.range frame.length.val).map frame.payload)
  if actualcrc ≠ goodcrc then
    if failed + 1 = MAX_FAILED then .returned 1 (printf .too_many_errors w)
    else .running (failed + 1) frame (uart_write cfg.SFL_ACK_CRCERROR w)
  else if frame.cmd = cfg.SFL_CMD_ABORT then
    .returned 1 (uart_write cfg.SFL_ACK_SUCCESS w)
  else if frame.cmd = cfg.SFL_CMD_LOAD then
    let writepointer := decode_addr cfg frame.payload
    let w := load_loop cfg frame.payload (frame.length.val - 4) 4 writepointer w
    .running 0 frame (uart_write cfg.SFL_ACK_SUCCESS w)
  else if frame.cmd = cfg.SFL_CMD_JUMP then
    let addr := decode_addr cfg frame.payload
    .handoff (boot cfg 0 0 0 addr (uart_write cfg.SFL_ACK_SUCCESS w))
  else
    if failed + 1 = MAX_FAILED then .returned 1 (printf .too_many_errors w)
    else .running (failed + 1) frame (uart_write cfg.SFL_ACK_UNKNOWN w)

/-- One iteration of the `while(1)` loop of `serialboot`. -/
def loop_body (cfg : Config) (failed : Nat) (frame : Frame) (w : World) : Step :=
  match grab_frame frame w with
  | none => .stalled { w with rx := [] }
  | some (frame, w) => dispatch cfg failed frame w

/-- At most `n` iterations of the `while(1)` loop; `running` when the loop
has not ended by then. -/
def frame_loop (cfg : Config) : Nat → Nat → Frame → World → Step
  | 0, failed, frame, w => .running failed frame w
  | n + 1, failed, frame, w =>
    match loop_body cfg failed frame w with
    | .running failed frame w => frame_loop cfg n failed frame w
    | s => s

/-- The bytes found by a list of polls. -/
def pending (polls : List (Option Byte)) : List Byte :=
  polls.filterMap id

/-- The function `serialboot()`.  `frame` is the indeterminate initial content of the local
frame, `polls` what the handshake sees until its timer expires, and `w.rx`
the bytes arriving after that.  Every iteration that goes on consumes at
least four bytes, hence the bound on the iterations. -/
def serialboot (cfg : Config) (frame : Frame) (polls : List (Option Byte)) (w : World) : Step :=
  let w := printf .booting_from_serial w
  let w := printf .press_q_or_esc w
  let w := (cfg.SFL_MAGIC_REQ.takeWhile (fun c => c ≠ 0)).foldl (fun w c => uart_write c w) w
  let ack := check_ack cfg.SFL_MAGIC_ACK polls
  let w := { w with rx := pending ack.2 ++ w.rx }
  match ack.1 with
  | .ACK_TIMEOUT => .returned 1 (printf .timeout w)
  | .ACK_CANCELLED => .returned 0 (printf .cancelled w)
  | .ACK_OK => frame_loop cfg (w.rx.length + 1) 0 frame w

/-- Constants of `generated/mem.h` used by the flash boot path, with the
checksum function `crc32` of `crc.h` and the byte order of the processor, none
of which is defined in `boot.c`.  An `unsigned int` has 32 bits. -/
structure FlashConfig where
  FLASH_BOOT_ADDRESS : Nat
  /-- The value of `MAIN_RAM_BASE`, when that macro is defined. -/
  MAIN_RAM_BASE : Option Nat
  /-- The value of `crc32(buffer, len)` as a function of the `len` bytes at `buffer`. -/
  crc32 : List Byte → Nat
  /-- Whether a word is stored with its most significant byte first. -/
  msb_first : Bool

/-- The `unsigned int` read at address `a`, in the byte order of the
processor. -/
def load_word (fc : FlashConfig) (mem : Nat → Byte) (a : Nat) : Nat :=
  if fc.msb_first then
    ((mem a).val <<< 24) ||| ((mem (a + 1)).val <<< 16) ||| ((mem (a + 2)).val <<< 8)
      ||| (mem (a + 3)).val
  else
    ((mem (a + 3)).val <<< 24) ||| ((mem (a + 2)).val <<< 16) ||| ((mem (a + 1)).val <<< 8)
      ||| (mem a).val

/-- The macro `FIRMWARE_BASE_ADDRESS`: `MAIN_RAM_BASE` when defined, else the
address after the two header words in flash. -/
def FIRMWARE_BASE_ADDRESS (fc : FlashConfig) : Nat :=
  match fc.MAIN_RAM_BASE with
  | some base => base
  | none => fc.FLASH_BOOT_ADDRESS + 2 * 4

/-- The call `memcpy(dst, src, n)`, for regions that do not overlap. -/
def memcpy (dst src n : Nat) (w : World) : World :=
  { w with
    mem := fun a => if dst ≤ a ∧ a < dst + n then w.mem (src + (a - dst)) else w.mem a
    trace := w.trace ++ [.memcpy dst src n] }

/-- How `flashboot` ends. -/
inductive FlashStep where
  /-- The function returned. -/
  | returned (w : World)
  /-- Control was handed over by `boot`, which does not return. -/
  | handoff (w : World)

/-- The function `flashboot()` of lines 324 to 351, the variant compiled when
`FLASH_BOOT_ADDRESS` is defined and `FLASHBOOT_LINUX_VEXRISCV` is not. -/
def flashboot (cfg : Config) (fc : FlashConfig) (w : World) : FlashStep :=
  let w := printf .booting_from_flash w
  let flashbase := fc.FLASH_BOOT_ADDRESS
  let length := load_word fc w.mem flashbase
  let flashbase := flashbase + 4
  let crc := load_word fc w.mem flashbase
  let flashbase := flashbase + 4
  if length < 32 ∨ length > 4 * 1024 * 1024 then
    .returned (printf (.invalid_length length) w)
  else
    let w := match fc.MAIN_RAM_BASE with
      | some base => memcpy base flashbase length (printf (.loading length) w)
      | none => w
    let got_crc := fc.crc32
      ((List.range length).map (fun i => w.mem (FIRMWARE_BASE_ADDRESS fc + i)))
    let w := w.emit (.crc32 (FIRMWARE_BASE_ADDRESS fc) length)
    if crc ≠ got_crc then .returned (printf (.crc_failed crc got_crc) w)
    else .handoff (boot cfg 0 0 0 (FIRMWARE_BASE_ADDRESS fc) w)

/-! ## Vocabulary of the properties -/

/-- A frame as the sender puts it on the line. -/
structure Packet where
  crc0 : Byte
  crc1 : Byte
  cmd : Byte
  data : List Byte

/-- The bytes of a packet in transmission order: length, checksum high,
checksum low, command, payload. -/
def Packet.wire (p : Packet) : List Byte :=
  Fin.ofNat p.data.length :: p.crc0 :: p.crc1 :: p.cmd :: p.data

/-- The transmitted checksum `crc[0] << 8 | crc[1]` equals `crc16` of the
command byte followed by the payload. -/
def Packet.crc_ok (cfg : Config) (p : Packet) : Prop :=
  ((p.crc0.val <<< 8) ||| p.crc1.val) = cfg.crc16 (p.cmd :: p.data)

instance (cfg : Config) (p : Packet) : Decidable (p.crc_ok cfg) := by
  unfold Packet.crc_ok; infer_instance

/-- The command byte is none of Abort, Load, Jump. -/
def Packet.unknown (cfg : Config) (p : Packet) : Prop :=
  p.cmd ≠ cfg.SFL_CMD_ABORT ∧ p.cmd ≠ cfg.SFL_CMD_LOAD ∧ p.cmd ≠ cfg.SFL_CMD_JUMP

instance (cfg : Config) (p : Packet) : Decidable (p.unknown cfg) := by
  unfold Packet.unknown; infer_instance

/-- A failing frame: checksum mismatch, or checksum-valid with an
unrecognized command. -/
def Packet.failing (cfg : Config) (p : Packet) : Prop :=
  ¬ p.crc_ok cfg ∨ p.unknown cfg

instance (cfg : Config) (p : Packet) : Decidable (p.failing cfg) := by
  unfold Packet.failing; infer_instance

/-- The local frame after packet `p` has been received into it: payload bytes
beyond the received ones keep their earlier content. -/
def Packet.into (p : Packet) (frame : Frame) : Frame :=
  { length := Fin.ofNat p.data.length
    crc0 := p.crc0
    crc1 := p.crc1
    cmd := p.cmd
    payload := fun j => p.data.getD j (frame.payload j) }

/-- The bytes of a sequence of packets sent back to back. -/
def wires (ps : List Packet) : List Byte :=
  (ps.map Packet.wire).flatten

/-- The stores recorded in a trace, in order. -/
def stores (t : List Event) : List (Nat × Byte) :=
  t.filterMap fun e => match e with
    | .store a c => some (a, c)
    | _ => none

/-- The calls of the trampoline recorded in a trace, in order. -/
def handoffs (t : List Event) : List (Nat × Nat × Nat × Nat) :=
  t.filterMap fun e => match e with
    | .boot_helper r1 r2 r3 a => some (r1, r2, r3, a)
    | _ => none

/-- The bytes passed to `uart_write` recorded in a trace, in order. -/
def sent (t : List Event) : List Byte :=
  t.filterMap fun e => match e with
    | .uart_write c => some c
    | _ => none

/-- The world a step ends in. -/
def Step.world : Step → World
  | .running _ _ w => w
  | .returned _ w => w
  | .handoff w => w
  | .stalled w => w

/-- A cancel character of the handshake: the letter Q or ESC. -/
def is_cancel (c : Byte) : Prop := c = 81 ∨ c = 27

instance (c : Byte) : Decidable (is_cancel c) := by
  unfold is_cancel; infer_instance

/-- A checksum used to instantiate the properties: the sum of the bytes. -/
def sum16 (bs : List Byte) : Nat :=
  (bs.map Fin.val).sum % 65536

/-- A configuration used to instantiate the properties: the magic strings,
command codes and acknowledgment bytes of the protocol, a checksum that sums
the bytes, and a 32-bit machine with an instruction cache and no secondary
cache. -/
def sample : Config :=
  { SFL_MAGIC_REQ := [115, 76, 53, 68, 100, 83, 77, 109, 107, 101, 107, 114, 111, 10]
    SFL_MAGIC_ACK := [122, 54, 73, 72, 71, 55, 99, 89, 68, 73, 68, 54, 111, 10]
    SFL_CMD_ABORT := 0
    SFL_CMD_LOAD := 1
    SFL_CMD_JUMP := 2
    SFL_ACK_SUCCESS := 75
    SFL_ACK_CRCERROR := 67
    SFL_ACK_UNKNOWN := 85
    crc16 := sum16
    ptr_bits := 32
    vexriscv := false
    l2_cache := false }

/-- A frame buffer holding zeros. -/
def frame0 : Frame :=
  { length := 0, crc0 := 0, crc1 := 0, cmd := 0, payload := fun _ => 0 }

/-- A world with an empty trace, zeroed memory and the given bytes to come. -/
def world0 (rx : List Byte) : World :=
  { rx := rx, mem := fun _ => 0, trace := [] }

/-- The value returned, when the step is a return. -/
def Step.ret : Step → Option Int
  | .returned r _ => some r
  | _ => none

/-- A Load packet for address 0x40000000 whose checksum bytes are wrong. -/
def bad_load : Packet :=
  { crc0 := 0, crc1 := 0, cmd := 1, data := [64, 0, 0, 0, 1, 2, 3, 4] }

/-- An Abort packet with a right checksum under `sample`. -/
def good_abort : Packet :=
  { crc0 := 0, crc1 := 0, cmd := 0, data := [] }

/-- The big-endian value `a0 << 24 | a1 << 16 | a2 << 8 | a3`. -/
def big_endian (a0 a1 a2 a3 : Byte) : Nat :=
  (a0.val <<< 24) ||| (a1.val <<< 16) ||| (a2.val <<< 8) ||| a3.val

/-- A Load packet writing 1, 2, 3, 4 at 0x40000000, with a right checksum
under `sample`. -/
def good_load : Packet :=
  { crc0 := 0, crc1 := 75, cmd := 1, data := [64, 0, 0, 0, 1, 2, 3, 4] }

/-- A Jump packet to 0x40000000, with a right checksum under `sample`. -/
def good_jump : Packet :=
  { crc0 := 0, crc1 := 66, cmd := 2, data := [64, 0, 0, 0] }

/-- A packet with the unrecognized command 9 and a right checksum under
`sample`. -/
def good_unknown : Packet :=
  { crc0 := 0, crc1 := 9, cmd := 9, data := [] }

/-- The acknowledgment byte a frame calls for: CrcError on a checksum
mismatch, UnknownCommand for a checksum-valid frame with an unrecognized
command, Success for a checksum-valid Abort, Load or Jump. -/
def expected_ack (cfg : Config) (p : Packet) : Byte :=
  if ¬ p.crc_ok cfg then cfg.SFL_ACK_CRCERROR
  else if p.unknown cfg then cfg.SFL_ACK_UNKNOWN
  else cfg.SFL_ACK_SUCCESS

/-- The trace once `serialboot` has printed its banner and sent the request
magic, that is, when it calls `check_ack`. -/
def request_sent (cfg : Config) (w : World) : List Event :=
  w.trace ++ [.printf .booting_from_serial, .printf .press_q_or_esc]
    ++ (cfg.SFL_MAGIC_REQ.takeWhile (fun c => c ≠ 0)).map Event.uart_write

/-- The frame buffer after a sequence of packets has been received into it. -/
def received (ps : List Packet) (frame : Frame) : Frame :=
  ps.foldl (fun fr p => p.into fr) frame

/-- The number of consecutive failing packets at the end of a sequence. -/
def trailing_failures (cfg : Config) (ps : List Packet) : Nat :=
  (ps.reverse.takeWhile (fun p => decide (p.failing cfg))).length

/-- Polls that deliver the acknowledgment magic of `sample`, byte after byte. -/
def ack_polls : List (Option Byte) :=
  sample.SFL_MAGIC_ACK.map some

/-- Five packets with wrong checksum bytes. -/
def five_bad : List Packet :=
  [bad_load, bad_load, bad_load, bad_load, bad_load]

/-- No cancel character occurs in `s`. -/
def no_cancel (s : List Byte) : Prop := ∀ c ∈ s, ¬ is_cancel c

/-- Some initial part `s` of the stream `bs` is free of cancel characters and
satisfies `E`. -/
def reached (E : List Byte → Prop) (bs : List Byte) : Prop :=
  ∃ s t, bs = s ++ t ∧ no_cancel s ∧ E s

/-- A cancel character occurs in the stream `bs`, with no cancel character
before it, and the part `s` before it does not satisfy `E`. -/
def cancelled_first (E : List Byte → Prop) (bs : List Byte) : Prop :=
  ∃ s c t, bs = s ++ c :: t ∧ is_cancel c ∧ no_cancel s ∧ ¬ E s

/-- The magic `m` appears contiguously in the stream `bs`, with no cancel
character in the stream up to the end of that appearance. -/
def magic_before_cancel (m bs : List Byte) : Prop :=
  reached (fun s => m <:+: s) bs

/-- A cancel character appears in the stream `bs` first: no cancel character
precedes it and the magic `m` does not appear contiguously before it. -/
def cancel_before_magic (m bs : List Byte) : Prop :=
  cancelled_first (fun s => m <:+: s) bs

/-- Polls delivering the bytes "ababac". -/
def ababac_polls : List (Option Byte) :=
  [some 97, some 98, some 97, some 98, some 97, some 99]

/-- Polls delivering the bytes "zzL", with idle polls in between. -/
def zzl_polls : List (Option Byte) :=
  [none, some 122, some 122, none, some 76]

/-- Polls delivering the first byte of the magic of `sample` and then that
magic, with idle polls in between. -/
def doubled_first_polls : List (Option Byte) :=
  none :: some 122 :: none :: sample.SFL_MAGIC_ACK.map some

/-- Polls delivering the bytes "aaaa". -/
def aaaa_polls : List (Option Byte) :=
  [some 97, some 97, none, some 97, some 97]

/-- Polls delivering the bytes "aaab". -/
def aaab_polls : List (Option Byte) :=
  [some 97, some 97, some 97, some 98]

/-- The failure counter the loop goes on with, when it goes on. -/
def Step.counter : Step → Option Nat
  | .running failed _ _ => some failed
  | _ => none

/-- Four packets with wrong checksum bytes, then a checksum-valid packet with
an unrecognized command. -/
def four_bad_then_unknown : List Packet :=
  [bad_load, bad_load, bad_load, bad_load, good_unknown]

/-- A Load packet that declares no payload at all, with a right checksum under
`sample`. -/
def empty_load : Packet :=
  { crc0 := 0, crc1 := 1, cmd := 1, data := [] }

/-- A frame buffer whose payload holds 64, 0, 0, 7 from an earlier frame. -/
def stale_frame : Frame :=
  { length := 4, crc0 := 0, crc1 := 0, cmd := 0,
    payload := fun j => if j = 0 then 64 else if j = 3 then 7 else 0 }

/-- The world a run of `flashboot` ends in. -/
def FlashStep.world : FlashStep → World
  | .returned w => w
  | .handoff w => w

/-- The length word of the flash header. -/
def header_length (fc : FlashConfig) (w : World) : Nat :=
  load_word fc w.mem fc.FLASH_BOOT_ADDRESS

/-- The checksum word of the flash header. -/
def header_crc (fc : FlashConfig) (w : World) : Nat :=
  load_word fc w.mem (fc.FLASH_BOOT_ADDRESS + 4)

/-- The image in flash: the `header_length` bytes after the two header
words. -/
def flash_image (fc : FlashConfig) (w : World) : List Byte :=
  (List.range (header_length fc w)).map (fun i => w.mem (fc.FLASH_BOOT_ADDRESS + 8 + i))

/-- The world of `flashboot` once the length check has passed and the image
has been copied to main memory, when there is one. -/
def relocated (fc : FlashConfig) (w : World) : World :=
  match fc.MAIN_RAM_BASE with
  | some base =>
    memcpy base (fc.FLASH_BOOT_ADDRESS + 4 + 4) (header_length fc w)
      (printf (.loading (header_length fc w)) (printf .booting_from_flash w))
  | none => printf .booting_from_flash w

/-- The diagnostics recorded in a trace, in order. -/
def prints (t : List Event) : List Msg :=
  t.filterMap fun e => match e with
    | .printf m => some m
    | _ => none

/-- A checksum used to instantiate the properties: the sum of the bytes. -/
def sum32 (bs : List Byte) : Nat :=
  (bs.map Fin.val).sum % 4294967296

/-- A flash configuration used to instantiate the properties. -/
def flash_sample : FlashConfig :=
  { FLASH_BOOT_ADDRESS := 0x20000000
    MAIN_RAM_BASE := some 0x40000000
    crc32 := sum32
    msb_first := false }

/-- A world whose flash holds the header words `length` and `crc`, least
significant byte first, followed by bytes of value 1. -/
def flash_world (length crc : Nat) : World :=
  { rx := []
    mem := fun a =>
      if a < 0x20000000 then 0
      else if a < 0x20000004 then Fin.ofNat (length / 256 ^ (a - 0x20000000))
      else if a < 0x20000008 then Fin.ofNat (crc / 256 ^ (a - 0x20000004))
      else if a < 0x30000000 then 1
      else 0
    trace := [] }

/-! ## Reading a frame -/

theorem uart_read_cons (w : World) (c : Byte) (rest : List Byte) (h : w.rx = c :: rest) :
    uart_read w = some (c, { w with rx := rest }) := by
  unfold uart_read
  rw [h]

theorem read_payload_append (data rest : List Byte) :
    ∀ (i : Nat) (payload : Nat → Byte) (w : World), w.rx = data ++ rest →
      read_payload data.length i payload w
        = some (fun j => if j < i then payload j else data.getD (j - i) (payload j),
                { w with rx := rest }) := by
  induction data with
  | nil =>
    intro i payload w h
    have hw : w = { w with rx := rest } := by
      cases w; simp_all
    simp only [List.length_nil, read_payload, List.getD_nil, ite_self]
    rw [← hw]
  | cons c data ih =>
    intro i payload w h
    simp only [List.length_cons, read_payload]
    rw [uart_read_cons w c (data ++ rest) (by simpa using h)]
    simp only
    rw [ih (i + 1) _ { w with rx := data ++ rest } rfl]
    congr 2
    funext j
    by_cases h1 : j < i
    · have h2 : j < i + 1 := by omega
      have h3 : j ≠ i := by omega
      simp [h1, h2, h3]
    · by_cases h3 : j = i
      · subst h3
        simp
      · have h2 : ¬ j < i + 1 := by omega
        have h4 : j - i = (j - (i + 1)) + 1 := by omega
        simp only [h1, h2, h3, if_false]
        rw [h4, List.getD_cons_succ]

theorem grab_frame_wire (frame : Frame) (w : World) (p : Packet) (rest : List Byte)
    (hrx : w.rx = p.wire ++ rest) (hlen : p.data.length < 256) :
    grab_frame frame w = some (p.into frame, { w with rx := rest }) := by
  unfold grab_frame
  rw [uart_read_cons w (Fin.ofNat p.data.length) (p.crc0 :: p.crc1 :: p.cmd :: (p.data ++ rest))
    (by simpa [Packet.wire] using hrx)]
  simp only
  rw [uart_read_cons _ p.crc0 (p.crc1 :: p.cmd :: (p.data ++ rest)) rfl]
  simp only
  rw [uart_read_cons _ p.crc1 (p.cmd :: (p.data ++ rest)) rfl]
  simp only
  rw [uart_read_cons _ p.cmd (p.data ++ rest) rfl]
  simp only
  have hv : (Fin.ofNat p.data.length : Byte).val = p.data.length := by
    simp [Fin.ofNat, Nat.mod_eq_of_lt hlen]
  rw [hv, read_payload_append p.data rest 0 frame.payload _ rfl]
  simp [Packet.into]

theorem into_length (p : Packet) (frame : Frame) (hlen : p.data.length < 256) :
    (p.into frame).length.val = p.data.length := by
  simp [Packet.into, Fin.ofNat, Nat.mod_eq_of_lt hlen]

theorem into_checked (p : Packet) (frame : Frame) (hlen : p.data.length < 256) :
    (List.range (p.into frame).length.val).map (p.into frame).payload = p.data := by
  rw [into_length p frame hlen]
  apply List.ext_getElem
  · simp
  · intro n h1 h2
    simp only [List.length_map, List.length_range] at h1
    simp [Packet.into, List.getElem?_eq_getElem h1]

theorem loop_body_wire (cfg : Config) (failed : Nat) (frame : Frame) (w : World) (p : Packet)
    (rest : List Byte) (hrx : w.rx = p.wire ++ rest) (hlen : p.data.length < 256) :
    loop_body cfg failed frame w = dispatch cfg failed (p.into frame) { w with rx := rest } := by
  unfold loop_body
  rw [grab_frame_wire frame w p rest hrx hlen]

/-! ## The checksum test and the command switch -/

theorem dispatch_crc_mismatch (cfg : Config) (failed : Nat) (frame : Frame) (w : World)
    (p : Packet) (hlen : p.data.length < 256) (hcrc : ¬ p.crc_ok cfg) :
    dispatch cfg failed (p.into frame) w
      = if failed + 1 = MAX_FAILED then .returned 1 (printf .too_many_errors w)
        else .running (failed + 1) (p.into frame) (uart_write cfg.SFL_ACK_CRCERROR w) := by
  have hc : ¬ (((p.into frame).crc0.val <<< 8) ||| (p.into frame).crc1.val)
      = cfg.crc16 ((p.into frame).cmd
          :: (List.range (p.into frame).length.val).map (p.into frame).payload) := by
    rw [into_checked p frame hlen]
    exact hcrc
  unfold dispatch
  simp only [ne_eq, hc, not_false_eq_true, if_true]

theorem dispatch_crc_ok (cfg : Config) (failed : Nat) (frame : Frame) (w : World)
    (p : Packet) (hlen : p.data.length < 256) (hcrc : p.crc_ok cfg) :
    dispatch cfg failed (p.into frame) w
      = if p.cmd = cfg.SFL_CMD_ABORT then
          .returned 1 (uart_write cfg.SFL_ACK_SUCCESS w)
        else if p.cmd = cfg.SFL_CMD_LOAD then
          .running 0 (p.into frame) (uart_write cfg.SFL_ACK_SUCCESS
            (load_loop cfg (p.into frame).payload (p.data.length - 4) 4
              (decode_addr cfg (p.into frame).payload) w))
        else if p.cmd = cfg.SFL_CMD_JUMP then
          .handoff (boot cfg 0 0 0 (decode_addr cfg (p.into frame).payload)
            (uart_write cfg.SFL_ACK_SUCCESS w))
        else if failed + 1 = MAX_FAILED then .returned 1 (printf .too_many_errors w)
        else .running (failed + 1) (p.into frame) (uart_write cfg.SFL_ACK_UNKNOWN w) := by
  have hc : (((p.into frame).crc0.val <<< 8) ||| (p.into frame).crc1.val)
      = cfg.crc16 ((p.into frame).cmd
          :: (List.range (p.into frame).length.val).map (p.into frame).payload) := by
    rw [into_checked p frame hlen]
    exact hcrc
  have hcmd : (p.into frame).cmd = p.cmd := rfl
  unfold dispatch
  simp only [ne_eq, hc, not_true_eq_false, if_false, hcmd, into_length p frame hlen]

/-! ## Properties of one frame -/

/-- C1: a frame whose transmitted checksum differs from `crc16` of the command
byte followed by the payload causes no store and no handoff, whatever its
length, command and payload: the iteration is not a handoff, memory is
unchanged, and the trace holds no new store and no new trampoline call. -/
theorem c1_bad_checksum_no_effect (cfg : Config) (failed : Nat) (frame : Frame) (w : World)
    (p : Packet) (rest : List Byte) (hrx : w.rx = p.wire ++ rest)
    (hlen : p.data.length < 256) (hcrc : ¬ p.crc_ok cfg) :
    (∀ w', loop_body cfg failed frame w ≠ .handoff w') ∧
    (loop_body cfg failed frame w).world.mem = w.mem ∧
    stores (loop_body cfg failed frame w).world.trace = stores w.trace ∧
    handoffs (loop_body cfg failed frame w).world.trace = handoffs w.trace := by
  rw [loop_body_wire cfg failed frame w p rest hrx hlen,
    dispatch_crc_mismatch cfg failed frame _ p hlen hcrc]
  by_cases h : failed + 1 = MAX_FAILED
  · simp [h, Step.world, printf, World.emit, stores, handoffs, List.filterMap_append]
  · simp [h, Step.world, uart_write, World.emit, stores, handoffs, List.filterMap_append]

theorem c1_witness :
    ¬ bad_load.crc_ok sample ∧
    (loop_body sample 0 frame0 (world0 (bad_load.wire ++ [7]))).world.mem = (world0 (bad_load.wire ++ [7])).mem :=
  ⟨by decide,
   (c1_bad_checksum_no_effect sample 0 frame0 (world0 (bad_load.wire ++ [7])) bad_load [7] rfl
      (by decide) (by decide)).2.1⟩

/-- C2, as stated, fails: under `sample` a checksum-valid Abort frame makes the
loop return 1, the very value returned when the failure limit is reached, and
not the value 0 returned on a cancelled handshake. -/
theorem c2_abort_same_as_failure_limit :
    good_abort.crc_ok sample ∧ good_abort.cmd = sample.SFL_CMD_ABORT ∧
    ¬ bad_load.crc_ok sample ∧
    (loop_body sample 0 frame0 (world0 good_abort.wire)).ret = some 1 ∧
    (loop_body sample (MAX_FAILED - 1) frame0 (world0 bad_load.wire)).ret = some 1 ∧
    (serialboot sample frame0 [some 81] (world0 [])).ret = some 0 := by
  decide

/-! ## The copy loop of Load -/

theorem big_endian_lt (a0 a1 a2 a3 : Byte) : big_endian a0 a1 a2 a3 < 2 ^ 32 := by
  unfold big_endian
  have h0 := a0.isLt
  have h1 := a1.isLt
  have h2 := a2.isLt
  have h3 := a3.isLt
  refine Nat.or_lt_two_pow (Nat.or_lt_two_pow (Nat.or_lt_two_pow ?_ ?_) ?_) ?_
  · rw [Nat.shiftLeft_eq]; omega
  · rw [Nat.shiftLeft_eq]; omega
  · rw [Nat.shiftLeft_eq]; omega
  · omega

theorem decode_addr_into (cfg : Config) (p : Packet) (frame : Frame) (a0 a1 a2 a3 : Byte)
    (data : List Byte) (hdata : p.data = a0 :: a1 :: a2 :: a3 :: data)
    (hbits : 32 ≤ cfg.ptr_bits) :
    decode_addr cfg (p.into frame).payload = big_endian a0 a1 a2 a3 := by
  have hlt : big_endian a0 a1 a2 a3 < 2 ^ cfg.ptr_bits :=
    lt_of_lt_of_le (big_endian_lt a0 a1 a2 a3) (Nat.pow_le_pow_right (by decide) hbits)
  unfold decode_addr
  simp only [Packet.into, hdata, List.getD_cons_zero, List.getD_cons_succ, Nat.shiftLeft_zero]
  exact Nat.mod_eq_of_lt hlt

theorem mod_shift_ne (m a d : Nat) (hd : 0 < d) (hdm : d < m) : (a + d) % m ≠ a % m := by
  intro h
  have h1 : a + d ≡ a + 0 [MOD m] := by
    simpa [Nat.ModEq] using h
  have h2 := Nat.ModEq.add_left_cancel' a h1
  unfold Nat.ModEq at h2
  rw [Nat.mod_eq_of_lt hdm, Nat.zero_mod] at h2
  omega

theorem load_loop_rx (cfg : Config) (payload : Nat → Byte) :
    ∀ (n i wp : Nat) (w : World), (load_loop cfg payload n i wp w).rx = w.rx := by
  intro n
  induction n with
  | zero => intro i wp w; rfl
  | succ n ih =>
    intro i wp w
    simp only [load_loop]
    rw [ih]
    rfl

theorem load_loop_trace (cfg : Config) (payload : Nat → Byte) :
    ∀ (n i wp : Nat) (w : World), wp < 2 ^ cfg.ptr_bits →
      (load_loop cfg payload n i wp w).trace
        = w.trace ++ (List.range n).map
            (fun k => Event.store ((wp + k) % 2 ^ cfg.ptr_bits) (payload (i + k))) := by
  intro n
  induction n with
  | zero => intro i wp w _; simp [load_loop]
  | succ n ih =>
    intro i wp w hwp
    simp only [load_loop]
    rw [ih (i + 1) _ _ (Nat.mod_lt _ (by positivity))]
    rw [List.range_succ_eq_map]
    simp only [poke, List.map_cons, List.map_map, Nat.add_zero, Nat.mod_eq_of_lt hwp,
      List.append_assoc, List.singleton_append]
    congr 2
    apply List.map_congr_left
    intro k _
    simp only [Function.comp, Nat.succ_eq_add_one, Nat.mod_add_mod]
    congr 2 <;> omega

theorem load_loop_mem_other (cfg : Config) (payload : Nat → Byte) :
    ∀ (n i wp : Nat) (w : World) (a : Nat), wp < 2 ^ cfg.ptr_bits →
      (∀ k, k < n → a ≠ (wp + k) % 2 ^ cfg.ptr_bits) →
      (load_loop cfg payload n i wp w).mem a = w.mem a := by
  intro n
  induction n with
  | zero => intro i wp w a _ _; rfl
  | succ n ih =>
    intro i wp w a hwp hne
    simp only [load_loop]
    rw [ih (i + 1) _ _ a (Nat.mod_lt _ (by positivity))]
    · have h0 := hne 0 (by omega)
      rw [Nat.add_zero, Nat.mod_eq_of_lt hwp] at h0
      simp [poke, h0]
    · intro k hk
      have h1 := hne (k + 1) (by omega)
      rw [Nat.mod_add_mod]
      rwa [show wp + 1 + k = wp + (k + 1) by omega]

theorem load_loop_mem_written (cfg : Config) (payload : Nat → Byte) :
    ∀ (n i wp : Nat) (w : World), wp < 2 ^ cfg.ptr_bits → n ≤ 2 ^ cfg.ptr_bits →
      ∀ k, k < n →
        (load_loop cfg payload n i wp w).mem ((wp + k) % 2 ^ cfg.ptr_bits) = payload (i + k) := by
  intro n
  induction n with
  | zero => intro i wp w _ _ k hk; omega
  | succ n ih =>
    intro i wp w hwp hn k hk
    simp only [load_loop]
    cases k with
    | zero =>
      simp only [Nat.add_zero]
      rw [Nat.mod_eq_of_lt hwp]
      rw [load_loop_mem_other cfg payload n (i + 1) _ _ wp (Nat.mod_lt _ (by positivity))]
      · simp [poke]
      · intro k hk2
        rw [Nat.mod_add_mod, show wp + 1 + k = wp + (k + 1) by omega]
        have := mod_shift_ne (2 ^ cfg.ptr_bits) wp (k + 1) (by omega) (by omega)
        rw [Nat.mod_eq_of_lt hwp] at this
        exact fun h => this h.symm
    | succ k =>
      have := ih (i + 1) ((wp + 1) % 2 ^ cfg.ptr_bits) (poke wp (payload i) w)
        (Nat.mod_lt _ (by positivity)) (by omega) k (by omega)
      rw [Nat.mod_add_mod] at this
      rw [show wp + (k + 1) = wp + 1 + k by omega, show i + (k + 1) = i + 1 + k by omega]
      exact this

theorem load_loop_sent (cfg : Config) (payload : Nat → Byte) :
    ∀ (n i wp : Nat) (w : World),
      sent (load_loop cfg payload n i wp w).trace = sent w.trace ∧
      handoffs (load_loop cfg payload n i wp w).trace = handoffs w.trace := by
  intro n
  induction n with
  | zero => intro i wp w; exact ⟨rfl, rfl⟩
  | succ n ih =>
    intro i wp w
    simp only [load_loop]
    rw [(ih _ _ _).1, (ih _ _ _).2]
    simp [poke, sent, handoffs, List.filterMap_append]

/-! ## The handoff -/

theorem boot_trace (cfg : Config) (r1 r2 r3 addr : Nat) (w : World) :
    (boot cfg r1 r2 r3 addr w).trace
      = w.trace ++ [.printf (.executing addr), .printf .liftoff, .uart_sync,
                    .irq_setmask 0, .irq_setie 0]
          ++ (if cfg.vexriscv then [] else [.flush_cpu_icache])
          ++ [.flush_cpu_dcache]
          ++ (if cfg.l2_cache then [.flush_l2_cache] else [])
          ++ [.boot_helper r1 r2 r3 addr] := by
  unfold boot
  cases cfg.vexriscv <;> cases cfg.l2_cache <;> simp [printf, World.emit]

theorem boot_rest (cfg : Config) (r1 r2 r3 addr : Nat) (w : World) :
    (boot cfg r1 r2 r3 addr w).rx = w.rx ∧ (boot cfg r1 r2 r3 addr w).mem = w.mem := by
  unfold boot
  cases cfg.vexriscv <;> cases cfg.l2_cache <;> simp [printf, World.emit]

theorem boot_observed (cfg : Config) (r1 r2 r3 addr : Nat) (w : World) :
    sent (boot cfg r1 r2 r3 addr w).trace = sent w.trace ∧
    stores (boot cfg r1 r2 r3 addr w).trace = stores w.trace ∧
    handoffs (boot cfg r1 r2 r3 addr w).trace = handoffs w.trace ++ [(r1, r2, r3, addr)] := by
  rw [boot_trace]
  cases cfg.vexriscv <;> cases cfg.l2_cache <;>
    simp [sent, stores, handoffs, List.filterMap_append]

/-! ## Load and Jump -/

/-- C5: a checksum-valid Load frame with payload `a0 a1 a2 a3` followed by
`data` leaves `data[j]` at address `A + j` for every `j`, where `A` is the
big-endian value of `a0 a1 a2 a3` and addresses are taken in the pointer
width; it changes no other address, performs the stores in order and then
sends the success acknowledgment, and the loop goes on, with the failure
counter at 0, to the bytes that follow the frame. -/
theorem c5_load_writes_payload (cfg : Config) (failed : Nat) (frame : Frame) (w : World)
    (p : Packet) (rest : List Byte) (a0 a1 a2 a3 : Byte) (data : List Byte)
    (hrx : w.rx = p.wire ++ rest) (hdata : p.data = a0 :: a1 :: a2 :: a3 :: data)
    (hlen : p.data.length < 256) (hcrc : p.crc_ok cfg)
    (hcmd : p.cmd = cfg.SFL_CMD_LOAD) (hne : cfg.SFL_CMD_LOAD ≠ cfg.SFL_CMD_ABORT)
    (hbits : 32 ≤ cfg.ptr_bits) :
    ∃ w', loop_body cfg failed frame w = .running 0 (p.into frame) w' ∧
      w'.rx = rest ∧
      (∀ j (h : j < data.length),
        w'.mem ((big_endian a0 a1 a2 a3 + j) % 2 ^ cfg.ptr_bits) = data[j]) ∧
      (big_endian a0 a1 a2 a3 + data.length ≤ 2 ^ cfg.ptr_bits →
        ∀ j (h : j < data.length), w'.mem (big_endian a0 a1 a2 a3 + j) = data[j]) ∧
      (∀ a, (∀ j, j < data.length → a ≠ (big_endian a0 a1 a2 a3 + j) % 2 ^ cfg.ptr_bits) →
        w'.mem a = w.mem a) ∧
      w'.trace = w.trace
        ++ (List.range data.length).map
            (fun j => Event.store ((big_endian a0 a1 a2 a3 + j) % 2 ^ cfg.ptr_bits)
              (data.getD j 0))
        ++ [.uart_write cfg.SFL_ACK_SUCCESS] := by
  have hA := decode_addr_into cfg p frame a0 a1 a2 a3 data hdata hbits
  have hAlt : big_endian a0 a1 a2 a3 < 2 ^ cfg.ptr_bits :=
    lt_of_lt_of_le (big_endian_lt a0 a1 a2 a3) (Nat.pow_le_pow_right (by decide) hbits)
  have hn : p.data.length - 4 = data.length := by simp [hdata]
  have hpay : ∀ j, j < data.length → (p.into frame).payload (4 + j) = data.getD j 0 := by
    intro j hj
    simp only [Packet.into, hdata]
    rw [show 4 + j = j + 1 + 1 + 1 + 1 by omega]
    simp only [List.getD_cons_succ]
    simp [List.getD_eq_getElem?_getD, List.getElem?_eq_getElem hj]
  have hdl : data.length ≤ 2 ^ cfg.ptr_bits := by
    have h1 : data.length < 256 := by
      have := hlen
      simp [hdata] at this
      omega
    have h2 : (2 : Nat) ^ 32 ≤ 2 ^ cfg.ptr_bits := Nat.pow_le_pow_right (by decide) hbits
    omega
  have hmem : ∀ j (h : j < data.length),
      (load_loop cfg (p.into frame).payload data.length 4 (big_endian a0 a1 a2 a3)
        { w with rx := rest }).mem ((big_endian a0 a1 a2 a3 + j) % 2 ^ cfg.ptr_bits)
        = data[j] := by
    intro j hj
    rw [load_loop_mem_written cfg _ data.length 4 _ _ hAlt hdl j hj, hpay j hj]
    simp [List.getD_eq_getElem?_getD, List.getElem?_eq_getElem hj]
  refine ⟨uart_write cfg.SFL_ACK_SUCCESS
    (load_loop cfg (p.into frame).payload data.length 4 (big_endian a0 a1 a2 a3)
      { w with rx := rest }), ?_, ?_, ?_, ?_, ?_, ?_⟩
  · rw [loop_body_wire cfg failed frame w p rest hrx hlen,
      dispatch_crc_ok cfg failed frame _ p hlen hcrc]
    rw [if_neg (by rw [hcmd]; exact hne), if_pos hcmd, hA, hn]
  · simp [uart_write, World.emit, load_loop_rx]
  · intro j hj
    exact hmem j hj
  · intro hfit j hj
    have := hmem j hj
    rw [Nat.mod_eq_of_lt (by omega)] at this
    exact this
  · intro a ha
    simp only [uart_write, World.emit]
    rw [load_loop_mem_other cfg _ data.length 4 _ _ a hAlt ha]
  · simp only [uart_write, World.emit]
    rw [load_loop_trace cfg _ data.length 4 _ _ hAlt]
    congr 2
    apply List.map_congr_left
    intro j hj
    rw [hpay j (List.mem_range.mp hj)]

theorem c5_witness :
    ∃ w', loop_body sample 0 frame0 (world0 (good_load.wire ++ [5])) = .running 0 (good_load.into frame0) w' ∧
      w'.rx = [5] ∧ w'.mem 0x40000000 = 1 ∧ w'.mem 0x40000001 = 2 ∧
      w'.mem 0x40000002 = 3 ∧ w'.mem 0x40000003 = 4 := by
  obtain ⟨w', h1, h2, _, h4, _, _⟩ :=
    c5_load_writes_payload sample 0 frame0 (world0 (good_load.wire ++ [5])) good_load [5]
      64 0 0 0 [1, 2, 3, 4] rfl rfl (by decide) (by decide) (by decide) (by decide) (by decide)
  have hfit := h4 (by decide)
  exact ⟨w', h1, h2, hfit 0 (by decide), hfit 1 (by decide), hfit 2 (by decide),
    hfit 3 (by decide)⟩

/-- C6: a checksum-valid Jump frame makes `serialboot` send the success
acknowledgment and then enter `boot(0, 0, 0, addr)`, whose trampoline call is
the last action, with `addr` decoded from payload bytes 0 to 3 (the
big-endian value of the four bytes when the frame carries them); nothing is
stored, exactly one trampoline call is added, the bytes after the frame stay
unread and the loop ends there. -/
theorem c6_jump_hands_off (cfg : Config) (failed : Nat) (frame : Frame) (w : World)
    (p : Packet) (rest : List Byte) (hrx : w.rx = p.wire ++ rest)
    (hlen : p.data.length < 256) (hcrc : p.crc_ok cfg)
    (hcmd : p.cmd = cfg.SFL_CMD_JUMP) (hne1 : cfg.SFL_CMD_JUMP ≠ cfg.SFL_CMD_ABORT)
    (hne2 : cfg.SFL_CMD_JUMP ≠ cfg.SFL_CMD_LOAD) :
    ∃ w', loop_body cfg failed frame w = .handoff w' ∧
      (∀ n, frame_loop cfg (n + 1) failed frame w = .handoff w') ∧
      w'.rx = rest ∧ w'.mem = w.mem ∧
      stores w'.trace = stores w.trace ∧
      handoffs w'.trace
        = handoffs w.trace ++ [(0, 0, 0, decode_addr cfg (p.into frame).payload)] ∧
      w'.trace = w.trace
        ++ [.uart_write cfg.SFL_ACK_SUCCESS,
            .printf (.executing (decode_addr cfg (p.into frame).payload)), .printf .liftoff,
            .uart_sync, .irq_setmask 0, .irq_setie 0]
        ++ (if cfg.vexriscv then [] else [.flush_cpu_icache])
        ++ [.flush_cpu_dcache]
        ++ (if cfg.l2_cache then [.flush_l2_cache] else [])
        ++ [.boot_helper 0 0 0 (decode_addr cfg (p.into frame).payload)] ∧
      (∀ (a0 a1 a2 a3 : Byte) (data : List Byte),
        p.data = a0 :: a1 :: a2 :: a3 :: data → 32 ≤ cfg.ptr_bits →
        decode_addr cfg (p.into frame).payload = big_endian a0 a1 a2 a3) := by
  have hbody : loop_body cfg failed frame w
      = .handoff (boot cfg 0 0 0 (decode_addr cfg (p.into frame).payload)
          (uart_write cfg.SFL_ACK_SUCCESS { w with rx := rest })) := by
    rw [loop_body_wire cfg failed frame w p rest hrx hlen,
      dispatch_crc_ok cfg failed frame _ p hlen hcrc]
    rw [if_neg (by rw [hcmd]; exact hne1), if_neg (by rw [hcmd]; exact hne2), if_pos hcmd]
  refine ⟨_, hbody, ?_, ?_, ?_, ?_, ?_, ?_, ?_⟩
  · intro n
    simp only [frame_loop, hbody]
  · rw [(boot_rest _ _ _ _ _ _).1]
    rfl
  · rw [(boot_rest _ _ _ _ _ _).2]
    rfl
  · rw [(boot_observed _ _ _ _ _ _).2.1]
    simp [uart_write, World.emit, stores, List.filterMap_append]
  · rw [(boot_observed _ _ _ _ _ _).2.2]
    simp [uart_write, World.emit, handoffs, List.filterMap_append]
  · rw [boot_trace]
    simp [uart_write, World.emit]
  · intro a0 a1 a2 a3 data hdata hbits
    exact decode_addr_into cfg p frame a0 a1 a2 a3 data hdata hbits

theorem c6_witness :
    ∃ w', loop_body sample 0 frame0 (world0 (good_jump.wire ++ [5])) = .handoff w' ∧
      w'.rx = [5] ∧ handoffs w'.trace = [(0, 0, 0, 0x40000000)] := by
  obtain ⟨w', h1, _, h3, _, _, h6, _, h8⟩ :=
    c6_jump_hands_off sample 0 frame0 (world0 (good_jump.wire ++ [5])) good_jump [5]
      rfl (by decide) (by decide) (by decide) (by decide) (by decide)
  refine ⟨w', h1, h3, ?_⟩
  rw [h6, h8 64 0 0 0 [] rfl (by decide)]
  rfl

/-! ## Acknowledgments -/

/-! ## The handshake result in `serialboot` -/

theorem foldl_uart_write (cs : List Byte) :
    ∀ w : World, cs.foldl (fun w c => uart_write c w) w
      = { w with trace := w.trace ++ cs.map Event.uart_write } := by
  induction cs with
  | nil => intro w; simp
  | cons c cs ih =>
    intro w
    rw [List.foldl_cons, ih]
    simp [uart_write, World.emit]

theorem check_ack_loop_timeout (str : List Byte) :
    ∀ (polls : List (Option Byte)) (recognized : Nat),
      (check_ack_loop str recognized polls).1 = .ACK_TIMEOUT →
      (check_ack_loop str recognized polls).2 = [] := by
  intro polls
  induction polls with
  | nil => intro r _; rfl
  | cons o polls ih =>
    intro r h
    cases o with
    | none =>
      simp only [check_ack_loop] at h ⊢
      exact ih r h
    | some c =>
      simp only [check_ack_loop] at h ⊢
      split_ifs at h ⊢ with h1 h2 h3 h4
      all_goals exact ih _ h

theorem serialboot_unfold (cfg : Config) (frame : Frame) (polls : List (Option Byte))
    (w : World) :
    serialboot cfg frame polls w
      = match (check_ack cfg.SFL_MAGIC_ACK polls).1 with
        | .ACK_TIMEOUT => .returned 1
            { rx := pending (check_ack cfg.SFL_MAGIC_ACK polls).2 ++ w.rx, mem := w.mem,
              trace := request_sent cfg w ++ [.printf .timeout] }
        | .ACK_CANCELLED => .returned 0
            { rx := pending (check_ack cfg.SFL_MAGIC_ACK polls).2 ++ w.rx, mem := w.mem,
              trace := request_sent cfg w ++ [.printf .cancelled] }
        | .ACK_OK =>
          frame_loop cfg ((pending (check_ack cfg.SFL_MAGIC_ACK polls).2 ++ w.rx).length + 1) 0
            frame
            { rx := pending (check_ack cfg.SFL_MAGIC_ACK polls).2 ++ w.rx, mem := w.mem,
              trace := request_sent cfg w } := by
  unfold serialboot
  simp only [foldl_uart_write, printf, World.emit, request_sent, List.append_assoc,
    List.singleton_append, List.cons_append, List.nil_append]

/-- C9: when the handshake times out `serialboot` prints "Timeout" and returns
1; when it is cancelled `serialboot` prints "Cancelled" and returns 0; in both
cases memory is unchanged, the trace holds no store and no trampoline call
beyond those it held, and every byte the handshake did not consume is still
unread.  Only when the handshake is acknowledged does `serialboot` run the
frame loop, from failure counter 0. -/
theorem c9_handshake_outcome (cfg : Config) (frame : Frame) (polls : List (Option Byte))
    (w : World) :
    ((check_ack cfg.SFL_MAGIC_ACK polls).1 = .ACK_TIMEOUT →
      serialboot cfg frame polls w
        = .returned 1 { rx := w.rx, mem := w.mem,
                        trace := request_sent cfg w ++ [.printf .timeout] } ∧
      stores (request_sent cfg w ++ [.printf .timeout]) = stores w.trace ∧
      handoffs (request_sent cfg w ++ [.printf .timeout]) = handoffs w.trace) ∧
    ((check_ack cfg.SFL_MAGIC_ACK polls).1 = .ACK_CANCELLED →
      serialboot cfg frame polls w
        = .returned 0 { rx := pending (check_ack cfg.SFL_MAGIC_ACK polls).2 ++ w.rx,
                        mem := w.mem,
                        trace := request_sent cfg w ++ [.printf .cancelled] } ∧
      stores (request_sent cfg w ++ [.printf .cancelled]) = stores w.trace ∧
      handoffs (request_sent cfg w ++ [.printf .cancelled]) = handoffs w.trace) ∧
    ((check_ack cfg.SFL_MAGIC_ACK polls).1 = .ACK_OK →
      serialboot cfg frame polls w
        = frame_loop cfg ((pending (check_ack cfg.SFL_MAGIC_ACK polls).2 ++ w.rx).length + 1) 0
            frame
            { rx := pending (check_ack cfg.SFL_MAGIC_ACK polls).2 ++ w.rx, mem := w.mem,
              trace := request_sent cfg w }) := by
  have hobs : ∀ m : Msg,
      stores (request_sent cfg w ++ [.printf m]) = stores w.trace ∧
      handoffs (request_sent cfg w ++ [.printf m]) = handoffs w.trace := by
    intro m
    have h1 : ∀ cs : List Byte, stores (cs.map Event.uart_write) = [] := by
      intro cs
      induction cs with
      | nil => rfl
      | cons c cs ih => simp [stores]
    have h2 : ∀ cs : List Byte, handoffs (cs.map Event.uart_write) = [] := by
      intro cs
      induction cs with
      | nil => rfl
      | cons c cs ih => simp [handoffs]
    have h1r := h1 (cfg.SFL_MAGIC_REQ.takeWhile (fun c => c ≠ 0))
    have h2r := h2 (cfg.SFL_MAGIC_REQ.takeWhile (fun c => c ≠ 0))
    simp only [stores] at h1r
    simp only [handoffs] at h2r
    constructor
    · simp [request_sent, stores, List.filterMap_append, h1r]
    · simp [request_sent, handoffs, List.filterMap_append, h2r]
  refine ⟨?_, ?_, ?_⟩
  · intro h
    refine ⟨?_, hobs _⟩
    have h2 := check_ack_loop_timeout cfg.SFL_MAGIC_ACK polls 0 h
    rw [serialboot_unfold, h]
    simp only
    unfold check_ack
    rw [h2]
    simp [pending]
  · intro h
    refine ⟨?_, hobs _⟩
    rw [serialboot_unfold, h]
  · intro h
    rw [serialboot_unfold, h]

theorem c9_witness :
    (serialboot sample frame0 [none, some 5, none] (world0 good_jump.wire)).ret = some 1 ∧
    (serialboot sample frame0 [none, some 27, some 5] (world0 good_jump.wire)).ret = some 0 := by
  have h := c9_handshake_outcome sample frame0 [none, some 5, none] (world0 good_jump.wire)
  have h2 := c9_handshake_outcome sample frame0 [none, some 27, some 5] (world0 good_jump.wire)
  constructor
  · rw [(h.1 (by decide)).1]
    rfl
  · rw [(h2.2.1 (by decide)).1]
    rfl

/-! ## Runs of frames -/

theorem frame_loop_add (cfg : Config) :
    ∀ (a b failed : Nat) (frame : Frame) (w : World),
      frame_loop cfg (a + b) failed frame w
        = match frame_loop cfg a failed frame w with
          | .running failed1 frame1 w1 => frame_loop cfg b failed1 frame1 w1
          | s => s := by
  intro a
  induction a with
  | zero => intro b failed frame w; simp [frame_loop]
  | succ a ih =>
    intro b failed frame w
    rw [show a + 1 + b = (a + b) + 1 by omega]
    simp only [frame_loop]
    cases h : loop_body cfg failed frame w with
    | running f1 fr1 w1 => simp only [ih]
    | returned r w1 => rfl
    | handoff w1 => rfl
    | stalled w1 => rfl

theorem failing_step (cfg : Config) (failed : Nat) (frame : Frame) (w : World) (p : Packet)
    (rest : List Byte) (hrx : w.rx = p.wire ++ rest) (hlen : p.data.length < 256)
    (hf : p.failing cfg) :
    loop_body cfg failed frame w
      = if failed + 1 = MAX_FAILED then
          .returned 1 { rx := rest, mem := w.mem, trace := w.trace ++ [.printf .too_many_errors] }
        else
          .running (failed + 1) (p.into frame)
            { rx := rest, mem := w.mem,
              trace := w.trace ++ [.uart_write (expected_ack cfg p)] } := by
  rw [loop_body_wire cfg failed frame w p rest hrx hlen]
  by_cases hc : p.crc_ok cfg
  · have hu : p.unknown cfg := by
      rcases hf with h | h
      · exact absurd hc h
      · exact h
    rw [dispatch_crc_ok cfg failed frame _ p hlen hc, if_neg hu.1, if_neg hu.2.1, if_neg hu.2.2]
    simp [expected_ack, hc, hu, printf, uart_write, World.emit]
  · rw [dispatch_crc_mismatch cfg failed frame _ p hlen hc]
    simp [expected_ack, hc, printf, uart_write, World.emit]

theorem load_step (cfg : Config) (failed : Nat) (frame : Frame) (w : World) (p : Packet)
    (rest : List Byte) (hrx : w.rx = p.wire ++ rest) (hlen : p.data.length < 256)
    (hcrc : p.crc_ok cfg) (hcmd : p.cmd = cfg.SFL_CMD_LOAD)
    (hne : cfg.SFL_CMD_LOAD ≠ cfg.SFL_CMD_ABORT) :
    loop_body cfg failed frame w
      = .running 0 (p.into frame)
          (uart_write cfg.SFL_ACK_SUCCESS
            (load_loop cfg (p.into frame).payload (p.data.length - 4) 4
              (decode_addr cfg (p.into frame).payload) { w with rx := rest })) := by
  rw [loop_body_wire cfg failed frame w p rest hrx hlen,
    dispatch_crc_ok cfg failed frame _ p hlen hcrc]
  rw [if_neg (by rw [hcmd]; exact hne), if_pos hcmd]

theorem failing_run (cfg : Config) :
    ∀ (ps : List Packet), (∀ p ∈ ps, p.data.length < 256 ∧ p.failing cfg) →
      ∀ (failed : Nat) (frame : Frame) (w : World) (rest : List Byte) (n : Nat),
        w.rx = wires ps ++ rest → failed + ps.length < MAX_FAILED →
        frame_loop cfg (ps.length + n) failed frame w
          = frame_loop cfg n (failed + ps.length) (received ps frame)
              { rx := rest, mem := w.mem,
                trace := w.trace ++ ps.map (fun p => Event.uart_write (expected_ack cfg p)) } := by
  intro ps
  induction ps with
  | nil =>
    intro _ failed frame w rest n hrx _
    have hw : w = { rx := rest, mem := w.mem, trace := w.trace } := by
      cases w; simp_all [wires]
    simp only [List.length_nil, Nat.zero_add, Nat.add_zero, received, List.foldl_nil,
      List.map_nil, List.append_nil]
    rw [← hw]
  | cons p ps ih =>
    intro hall failed frame w rest n hrx hlt
    have hp := hall p (List.mem_cons_self _ _)
    have hrx1 : w.rx = p.wire ++ (wires ps ++ rest) := by
      simpa [wires] using hrx
    simp only [List.length_cons] at hlt
    rw [show (p :: ps).length + n = (ps.length + n) + 1 by simp; omega]
    simp only [frame_loop]
    rw [failing_step cfg failed frame w p _ hrx1 hp.1 hp.2, if_neg (by omega)]
    simp only
    rw [ih (fun q hq => hall q (List.mem_cons_of_mem _ hq)) (failed + 1) _ _ rest n rfl
      (by omega)]
    simp only [received, List.foldl_cons, List.map_cons, List.append_assoc,
      List.singleton_append, List.length_cons]
    rw [show failed + 1 + ps.length = failed + (ps.length + 1) by omega]

theorem failing_limit (cfg : Config) :
    ∀ (ps : List Packet), (∀ p ∈ ps, p.data.length < 256 ∧ p.failing cfg) →
      ∀ (failed : Nat) (frame : Frame) (w : World) (rest : List Byte) (n : Nat),
        w.rx = wires ps ++ rest → ps ≠ [] → failed + ps.length = MAX_FAILED →
        frame_loop cfg (ps.length + n) failed frame w
          = .returned 1
              { rx := rest, mem := w.mem,
                trace := w.trace
                  ++ ps.dropLast.map (fun p => Event.uart_write (expected_ack cfg p))
                  ++ [.printf .too_many_errors] } := by
  intro ps
  induction ps with
  | nil => intro _ _ _ _ _ _ _ h; exact absurd rfl h
  | cons p ps ih =>
    intro hall failed frame w rest n hrx _ hlt
    have hp := hall p (List.mem_cons_self _ _)
    have hrx1 : w.rx = p.wire ++ (wires ps ++ rest) := by
      simpa [wires] using hrx
    simp only [List.length_cons] at hlt
    rw [show (p :: ps).length + n = (ps.length + n) + 1 by simp; omega]
    simp only [frame_loop]
    rw [failing_step cfg failed frame w p _ hrx1 hp.1 hp.2]
    cases ps with
    | nil =>
      simp only [List.length_nil] at hlt
      rw [if_pos (by omega)]
      simp [wires]
    | cons q qs =>
      simp only [List.length_cons] at hlt
      rw [if_neg (by omega)]
      simp only
      rw [ih (fun r hr => hall r (List.mem_cons_of_mem _ hr)) (failed + 1) _ _ rest n rfl
        (by simp) (by simp only [List.length_cons]; omega)]
      simp [List.dropLast]

theorem observe_sent_bytes (cs : List Byte) :
    stores (cs.map Event.uart_write) = [] ∧ handoffs (cs.map Event.uart_write) = [] := by
  induction cs with
  | nil => exact ⟨rfl, rfl⟩
  | cons c cs ih => simp [stores, handoffs]

theorem wires_length (ps : List Packet) : 4 * ps.length ≤ (wires ps).length := by
  induction ps with
  | nil => simp [wires]
  | cons p ps ih =>
    simp only [wires, List.map_cons, List.flatten_cons, List.length_append, List.length_cons,
      Packet.wire] at ih ⊢
    omega

theorem trailing_failures_snoc (cfg : Config) (ps : List Packet) (q : Packet) :
    trailing_failures cfg (ps ++ [q])
      = if q.failing cfg then trailing_failures cfg ps + 1 else 0 := by
  unfold trailing_failures
  rw [List.reverse_append, List.reverse_singleton, List.singleton_append, List.takeWhile_cons]
  by_cases h : q.failing cfg <;> simp [h]

/-- The four ways one iteration on a packet can go. -/
theorem loop_body_cases (cfg : Config) (failed : Nat) (frame : Frame) (w : World) (q : Packet)
    (rest : List Byte) (hrx : w.rx = q.wire ++ rest) (hlen : q.data.length < 256) :
    (q.failing cfg ∧
      loop_body cfg failed frame w
        = if failed + 1 = MAX_FAILED then
            .returned 1
              { rx := rest, mem := w.mem, trace := w.trace ++ [.printf .too_many_errors] }
          else
            .running (failed + 1) (q.into frame)
              { rx := rest, mem := w.mem,
                trace := w.trace ++ [.uart_write (expected_ack cfg q)] }) ∨
    (¬ q.failing cfg ∧ q.crc_ok cfg ∧ q.cmd = cfg.SFL_CMD_ABORT ∧
      ∃ w', loop_body cfg failed frame w = .returned 1 w') ∨
    (¬ q.failing cfg ∧ q.cmd ≠ cfg.SFL_CMD_ABORT ∧
      ∃ w', loop_body cfg failed frame w = .running 0 (q.into frame) w' ∧ w'.rx = rest) ∨
    (¬ q.failing cfg ∧ q.cmd ≠ cfg.SFL_CMD_ABORT ∧
      ∃ w', loop_body cfg failed frame w = .handoff w') := by
  by_cases hf : q.failing cfg
  · exact Or.inl ⟨hf, failing_step cfg failed frame w q rest hrx hlen hf⟩
  · have hc : q.crc_ok cfg := by
      by_contra h
      exact hf (Or.inl h)
    have hu : ¬ q.unknown cfg := fun h => hf (Or.inr h)
    rw [loop_body_wire cfg failed frame w q rest hrx hlen,
      dispatch_crc_ok cfg failed frame _ q hlen hc]
    by_cases h1 : q.cmd = cfg.SFL_CMD_ABORT
    · rw [if_pos h1]
      exact Or.inr (Or.inl ⟨hf, hc, h1, _, rfl⟩)
    · rw [if_neg h1]
      by_cases h2 : q.cmd = cfg.SFL_CMD_LOAD
      · rw [if_pos h2]
        refine Or.inr (Or.inr (Or.inl ⟨hf, h1, _, rfl, ?_⟩))
        simp [uart_write, World.emit, load_loop_rx]
      · rw [if_neg h2]
        by_cases h3 : q.cmd = cfg.SFL_CMD_JUMP
        · rw [if_pos h3]
          exact Or.inr (Or.inr (Or.inr ⟨hf, h1, _, rfl⟩))
        · exact absurd ⟨h1, h2, h3⟩ hu

theorem running_after (cfg : Config) (frame : Frame) :
    ∀ (ps : List Packet), (∀ p ∈ ps, p.data.length < 256) →
      ∀ (w : World) (rest : List Byte) (f : Nat) (fr1 : Frame) (w1 : World),
        w.rx = wires ps ++ rest →
        frame_loop cfg ps.length 0 frame w = .running f fr1 w1 →
        w1.rx = rest ∧ f = trailing_failures cfg ps ∧ f < MAX_FAILED := by
  intro ps
  induction ps using List.reverseRecOn with
  | nil =>
    intro _ w rest f fr1 w1 hrx hrun
    simp only [List.length_nil, frame_loop, Step.running.injEq] at hrun
    obtain ⟨hf, _, hw⟩ := hrun
    subst hf hw
    refine ⟨by simpa [wires] using hrx, by simp [trailing_failures], by decide⟩
  | append_singleton ps q ih =>
    intro hall w rest f fr1 w1 hrx hrun
    have hrx1 : w.rx = wires ps ++ (q.wire ++ rest) := by
      simpa [wires] using hrx
    rw [List.length_append, List.length_singleton, frame_loop_add] at hrun
    cases h0 : frame_loop cfg ps.length 0 frame w with
    | running f0 fr0 w0 =>
      rw [h0] at hrun
      simp only [frame_loop] at hrun
      obtain ⟨hw0, hf0, hlt0⟩ := ih (fun p hp => hall p (List.mem_append_left _ hp)) w
        (q.wire ++ rest) f0 fr0 w0 hrx1 h0
      have hq := hall q (List.mem_append_right _ (List.mem_singleton_self q))
      rw [trailing_failures_snoc]
      rcases loop_body_cases cfg f0 fr0 w0 q rest hw0 hq with
        ⟨hfail, hb⟩ | ⟨_, _, _, w2, hb⟩ | ⟨hnf, _, w2, hb, hw2⟩ | ⟨_, _, w2, hb⟩
      · rw [hb] at hrun
        by_cases hm : f0 + 1 = MAX_FAILED
        · rw [if_pos hm] at hrun
          simp at hrun
        · rw [if_neg hm] at hrun
          simp only [Step.running.injEq] at hrun
          obtain ⟨hf, _, hw⟩ := hrun
          subst hf hw
          refine ⟨rfl, by rw [if_pos hfail, hf0], ?_⟩
          unfold MAX_FAILED at hm hlt0 ⊢
          omega
      · rw [hb] at hrun
        simp at hrun
      · rw [hb] at hrun
        simp only [Step.running.injEq] at hrun
        obtain ⟨hf, _, hw⟩ := hrun
        subst hf hw
        exact ⟨hw2, by rw [if_neg hnf], by decide⟩
      · rw [hb] at hrun
        simp at hrun
    | returned r w0 => rw [h0] at hrun; simp at hrun
    | handoff w0 => rw [h0] at hrun; simp at hrun
    | stalled w0 => rw [h0] at hrun; simp at hrun

theorem failing_limit_observed (cfg : Config) (ps : List Packet)
    (hall : ∀ p ∈ ps, p.data.length < 256 ∧ p.failing cfg) (frame : Frame) (w : World)
    (rest : List Byte) (n : Nat) (hrx : w.rx = wires ps ++ rest)
    (hlen : ps.length = MAX_FAILED) :
    ∃ w', frame_loop cfg (MAX_FAILED + n) 0 frame w = .returned 1 w' ∧ w'.rx = rest ∧
      w'.mem = w.mem ∧ stores w'.trace = stores w.trace ∧
      handoffs w'.trace = handoffs w.trace := by
  have hne : ps ≠ [] := by
    intro h
    rw [h] at hlen
    exact absurd hlen (by decide)
  have h := failing_limit cfg ps hall 0 frame w rest n hrx hne (by omega)
  rw [hlen] at h
  refine ⟨_, h, rfl, rfl, ?_, ?_⟩
  · have hs := (observe_sent_bytes (ps.dropLast.map (expected_ack cfg))).1
    rw [List.map_map] at hs
    simp only [stores, Function.comp_def] at hs
    simp only [stores, List.filterMap_append]
    rw [hs]
    simp
  · have hs := (observe_sent_bytes (ps.dropLast.map (expected_ack cfg))).2
    rw [List.map_map] at hs
    simp only [handoffs, Function.comp_def] at hs
    simp only [handoffs, List.filterMap_append]
    rw [hs]
    simp

/-- C3, as stated, fails: under `sample`, after an acknowledged handshake a
single checksum-valid Abort frame, which is not a failing frame, makes
`serialboot` return 1. -/
theorem c3_returns_one_without_failures :
    (check_ack sample.SFL_MAGIC_ACK ack_polls).1 = .ACK_OK ∧
    good_abort.crc_ok sample ∧ ¬ good_abort.failing sample ∧
    trailing_failures sample [good_abort] = 0 ∧
    (serialboot sample frame0 ack_polls (world0 good_abort.wire)).ret = some 1 := by
  decide

/-- C3, amended: in the frame loop entered after an acknowledged handshake,
(1) fewer than `MAX_FAILED` consecutive failing frames, checksum mismatches
and unrecognized commands in any mix, leave the loop running with the failure
counter at their number; (2) `MAX_FAILED` of them make the loop return 1 with
memory unchanged, no store and no trampoline call; (3) so does `serialboot`
when they follow the acknowledged handshake; (4) the frame at which the loop
returns 1 is either the one completing `MAX_FAILED` consecutive failing frames
or a checksum-valid Abort frame. -/
theorem c3_failure_limit (cfg : Config) (frame : Frame) :
    (∀ (ps : List Packet) (w : World) (rest : List Byte),
      (∀ p ∈ ps, p.data.length < 256 ∧ p.failing cfg) → w.rx = wires ps ++ rest →
      ps.length < MAX_FAILED →
      frame_loop cfg ps.length 0 frame w
        = .running ps.length (received ps frame)
            { rx := rest, mem := w.mem,
              trace := w.trace ++ ps.map (fun p => Event.uart_write (expected_ack cfg p)) }) ∧
    (∀ (ps : List Packet) (w : World) (rest : List Byte) (n : Nat),
      (∀ p ∈ ps, p.data.length < 256 ∧ p.failing cfg) → w.rx = wires ps ++ rest →
      ps.length = MAX_FAILED →
      ∃ w', frame_loop cfg (MAX_FAILED + n) 0 frame w = .returned 1 w' ∧ w'.rx = rest ∧
        w'.mem = w.mem ∧ stores w'.trace = stores w.trace ∧
        handoffs w'.trace = handoffs w.trace) ∧
    (∀ (polls : List (Option Byte)) (ps : List Packet) (w : World) (rest : List Byte),
      (check_ack cfg.SFL_MAGIC_ACK polls).1 = .ACK_OK →
      pending (check_ack cfg.SFL_MAGIC_ACK polls).2 ++ w.rx = wires ps ++ rest →
      (∀ p ∈ ps, p.data.length < 256 ∧ p.failing cfg) → ps.length = MAX_FAILED →
      ∃ w', serialboot cfg frame polls w = .returned 1 w' ∧ w'.rx = rest ∧
        w'.mem = w.mem ∧ stores w'.trace = stores w.trace ∧
        handoffs w'.trace = handoffs w.trace) ∧
    (∀ (ps : List Packet) (q : Packet) (w : World) (rest : List Byte) (f : Nat) (fr1 : Frame)
      (w1 : World),
      (∀ p ∈ ps ++ [q], p.data.length < 256) → w.rx = wires (ps ++ [q]) ++ rest →
      frame_loop cfg ps.length 0 frame w = .running f fr1 w1 →
      ((frame_loop cfg (ps.length + 1) 0 frame w).ret = some 1 ↔
        (q.crc_ok cfg ∧ q.cmd = cfg.SFL_CMD_ABORT) ∨
        MAX_FAILED ≤ trailing_failures cfg (ps ++ [q]))) := by
  refine ⟨?_, ?_, ?_, ?_⟩
  · intro ps w rest hall hrx hlt
    have h := failing_run cfg ps hall 0 frame w rest 0 hrx (by omega)
    simpa [frame_loop] using h
  · intro ps w rest n hall hrx hlen
    exact failing_limit_observed cfg ps hall frame w rest n hrx hlen
  · intro polls ps w rest hack hrx hall hlen
    have hlong : MAX_FAILED ≤ (wires ps ++ rest).length + 1 := by
      have := wires_length ps
      rw [List.length_append]
      unfold MAX_FAILED at hlen ⊢
      omega
    obtain ⟨n, hn⟩ := Nat.exists_eq_add_of_le hlong
    obtain ⟨w', h1, h2, h3, h4, h5⟩ := failing_limit_observed cfg ps hall frame
      { rx := wires ps ++ rest, mem := w.mem, trace := request_sent cfg w } rest n rfl hlen
    have hs := (observe_sent_bytes (cfg.SFL_MAGIC_REQ.takeWhile (fun c => c ≠ 0)))
    refine ⟨w', ?_, h2, h3, ?_, ?_⟩
    · rw [serialboot_unfold, hack]
      simp only
      rw [hrx, hn]
      exact h1
    · rw [h4]
      have h := hs.1
      simp only [stores] at h
      simp [request_sent, stores, List.filterMap_append, h]
    · rw [h5]
      have h := hs.2
      simp only [handoffs] at h
      simp [request_sent, handoffs, List.filterMap_append, h]
  · intro ps q w rest f fr1 w1 hall hrx hrun
    have hrx1 : w.rx = wires ps ++ (q.wire ++ rest) := by
      simpa [wires] using hrx
    obtain ⟨hw1, hf, hlt⟩ := running_after cfg frame ps
      (fun p hp => hall p (List.mem_append_left _ hp)) w (q.wire ++ rest) f fr1 w1 hrx1 hrun
    have hq := hall q (List.mem_append_right _ (List.mem_singleton_self q))
    rw [frame_loop_add, hrun]
    simp only [frame_loop]
    rw [trailing_failures_snoc, ← hf]
    rcases loop_body_cases cfg f fr1 w1 q rest hw1 hq with
      ⟨hfail, hb⟩ | ⟨hnf, hc, ha, w2, hb⟩ | ⟨hnf, hna, w2, hb, _⟩ | ⟨hnf, hna, w2, hb⟩
    · have hnot : ¬ (q.crc_ok cfg ∧ q.cmd = cfg.SFL_CMD_ABORT) := by
        rintro ⟨hc, ha⟩
        rcases hfail with h | h
        · exact h hc
        · exact h.1 ha
      rw [hb, if_pos hfail]
      by_cases hm : f + 1 = MAX_FAILED
      · rw [if_pos hm]
        simp [Step.ret, hm]
      · rw [if_neg hm]
        simp only [Step.ret]
        constructor
        · intro h
          cases h
        · intro h
          rcases h with h | h
          · exact absurd h hnot
          · unfold MAX_FAILED at hm hlt h
            omega
    · rw [hb]
      simp [Step.ret, hc, ha]
    · rw [hb, if_neg hnf]
      simp [Step.ret, hna, MAX_FAILED]
    · rw [hb, if_neg hnf]
      simp [Step.ret, hna, MAX_FAILED]

theorem c3_witness :
    ∃ w', serialboot sample frame0 ack_polls (world0 (wires five_bad ++ [1, 2])) = .returned 1 w' ∧
      w'.rx = [1, 2] ∧ stores w'.trace = [] ∧ handoffs w'.trace = [] := by
  obtain ⟨w', h1, h2, _, h4, h5⟩ :=
    (c3_failure_limit sample frame0).2.2.1 ack_polls five_bad (world0 (wires five_bad ++ [1, 2]))
      [1, 2] (by decide) (by decide) (by decide) (by decide)
  exact ⟨w', h1, h2, h4, h5⟩

/-- C4: for every `k ≤ MAX_FAILED - 1`, when the failure counter has reached
`k` through consecutive failing frames and one checksum-valid Load frame
follows, the loop is running with the failure counter at 0; fewer than
`MAX_FAILED` further consecutive failing frames leave it running, and
`MAX_FAILED` of them make it return 1. -/
theorem c4_valid_frame_resets_counter (cfg : Config) (failed : Nat) (frame : Frame) (w : World)
    (ps qs : List Packet) (ld : Packet) (rest : List Byte)
    (hps : ∀ p ∈ ps, p.data.length < 256 ∧ p.failing cfg)
    (hk : failed + ps.length ≤ MAX_FAILED - 1)
    (hld : ld.data.length < 256) (hcrc : ld.crc_ok cfg) (hcmd : ld.cmd = cfg.SFL_CMD_LOAD)
    (hne : cfg.SFL_CMD_LOAD ≠ cfg.SFL_CMD_ABORT)
    (hqs : ∀ q ∈ qs, q.data.length < 256 ∧ q.failing cfg)
    (hrx : w.rx = wires ps ++ (ld.wire ++ (wires qs ++ rest))) :
    (∃ f fr0 w0, frame_loop cfg ps.length failed frame w = .running f fr0 w0 ∧
      f = failed + ps.length) ∧
    (∃ w1, frame_loop cfg (ps.length + 1) failed frame w
        = .running 0 (ld.into (received ps frame)) w1 ∧ w1.rx = wires qs ++ rest) ∧
    (qs.length < MAX_FAILED →
      ∃ w2, frame_loop cfg (ps.length + (1 + qs.length)) failed frame w
        = .running qs.length (received qs (ld.into (received ps frame))) w2 ∧ w2.rx = rest) ∧
    (qs.length = MAX_FAILED →
      ∀ n, ∃ w2, frame_loop cfg (ps.length + (1 + (MAX_FAILED + n))) failed frame w
        = .returned 1 w2 ∧ w2.rx = rest) := by
  have hk1 : failed + ps.length < MAX_FAILED := by
    unfold MAX_FAILED at hk ⊢
    omega
  have hhead : ∃ w1 : World, w1.rx = wires qs ++ rest ∧
      ∀ m, frame_loop cfg (ps.length + (1 + m)) failed frame w
        = frame_loop cfg m 0 (ld.into (received ps frame)) w1 := by
    refine ⟨uart_write cfg.SFL_ACK_SUCCESS
      (load_loop cfg (ld.into (received ps frame)).payload (ld.data.length - 4) 4
        (decode_addr cfg (ld.into (received ps frame)).payload)
        { rx := wires qs ++ rest, mem := w.mem,
          trace := w.trace ++ ps.map (fun p => Event.uart_write (expected_ack cfg p)) }),
      by simp [uart_write, World.emit, load_loop_rx], ?_⟩
    intro m
    rw [failing_run cfg ps hps failed frame w _ (1 + m) hrx hk1,
      show 1 + m = m + 1 by omega]
    simp only [frame_loop]
    rw [load_step cfg _ _ _ ld (wires qs ++ rest) rfl hld hcrc hcmd hne]
  obtain ⟨w1, hw1, hhead⟩ := hhead
  refine ⟨?_, ?_, ?_, ?_⟩
  · have h := failing_run cfg ps hps failed frame w _ 0 hrx hk1
    rw [Nat.add_zero] at h
    simp only [frame_loop] at h
    exact ⟨_, _, _, h, rfl⟩
  · have h0 := hhead 0
    rw [Nat.add_zero] at h0
    simp only [frame_loop] at h0
    exact ⟨w1, h0, hw1⟩
  · intro hlt
    have h := failing_run cfg qs hqs 0 (ld.into (received ps frame)) w1 rest 0 hw1 (by omega)
    rw [Nat.add_zero, Nat.zero_add] at h
    simp only [frame_loop] at h
    have h2 := hhead qs.length
    rw [h] at h2
    exact ⟨_, h2, rfl⟩
  · intro hlen n
    rw [hhead (MAX_FAILED + n)]
    obtain ⟨w2, h1, h2, _⟩ := failing_limit_observed cfg qs hqs (ld.into (received ps frame))
      w1 rest n hw1 hlen
    exact ⟨w2, h1, h2⟩

theorem c4_witness :
    ∃ w1, frame_loop sample (2 + 1) 0 frame0
        (world0 (wires [bad_load, good_unknown] ++ (good_load.wire ++ (wires [] ++ [7]))))
      = .running 0 (good_load.into (received [bad_load, good_unknown] frame0)) w1 ∧
      w1.rx = [7] := by
  obtain ⟨w1, h1, h2⟩ :=
    (c4_valid_frame_resets_counter sample 0 frame0
      (world0 (wires [bad_load, good_unknown] ++ (good_load.wire ++ (wires [] ++ [7]))))
      [bad_load, good_unknown] [] good_load [7] (by decide) (by decide) (by decide) (by decide)
      (by decide) (by decide) (by decide) rfl).2.1
  exact ⟨w1, h1, h2⟩

/-! ## The handshake detector -/

theorem reached_congr (E F : List Byte → Prop) (h : ∀ s, E s ↔ F s) (bs : List Byte) :
    (reached E bs ↔ reached F bs) ∧ (cancelled_first E bs ↔ cancelled_first F bs) := by
  have hEF : E = F := funext fun s => propext (h s)
  rw [hEF]
  exact ⟨Iff.rfl, Iff.rfl⟩

theorem reached_nil (E : List Byte → Prop) :
    (reached E [] ↔ E []) ∧ ¬ cancelled_first E [] := by
  constructor
  · constructor
    · rintro ⟨s, t, h, _, hE⟩
      have hs : s = [] := (List.append_eq_nil.mp h.symm).1
      rw [hs] at hE
      exact hE
    · intro hE
      exact ⟨[], [], rfl, fun c hc => absurd hc (List.not_mem_nil c), hE⟩
  · rintro ⟨s, c, t, h, _⟩
    have := congrArg List.length h
    simp only [List.length_nil, List.length_append, List.length_cons] at this
    omega

theorem reached_cons_cancel (E : List Byte → Prop) (c : Byte) (bs : List Byte)
    (hc : is_cancel c) :
    (reached E (c :: bs) ↔ E []) ∧ (cancelled_first E (c :: bs) ↔ ¬ E []) := by
  constructor
  · constructor
    · rintro ⟨s, t, h, hs, hE⟩
      cases s with
      | nil => exact hE
      | cons x s =>
        simp only [List.cons_append, List.cons.injEq] at h
        exact absurd hc (h.1 ▸ hs x (List.mem_cons_self _ _))
    · intro hE
      exact ⟨[], c :: bs, rfl, fun x hx => absurd hx (List.not_mem_nil x), hE⟩
  · constructor
    · rintro ⟨s, x, t, h, _, hs, hE⟩
      cases s with
      | nil => exact hE
      | cons y s =>
        simp only [List.cons_append, List.cons.injEq] at h
        exact absurd hc (h.1 ▸ hs y (List.mem_cons_self _ _))
    · intro hE
      exact ⟨[], c, bs, rfl, hc, fun x hx => absurd hx (List.not_mem_nil x), hE⟩

theorem reached_cons (E : List Byte → Prop) (c : Byte) (bs : List Byte) (hc : ¬ is_cancel c) :
    (reached E (c :: bs) ↔ E [] ∨ reached (fun s => E (c :: s)) bs) ∧
    (cancelled_first E (c :: bs) ↔ cancelled_first (fun s => E (c :: s)) bs) := by
  constructor
  · constructor
    · rintro ⟨s, t, h, hs, hE⟩
      cases s with
      | nil => exact Or.inl hE
      | cons x s =>
        simp only [List.cons_append, List.cons.injEq] at h
        obtain ⟨hx, hbs⟩ := h
        subst hx
        exact Or.inr ⟨s, t, hbs, fun y hy => hs y (List.mem_cons_of_mem _ hy), hE⟩
    · rintro (hE | ⟨s, t, h, hs, hE⟩)
      · exact ⟨[], c :: bs, rfl, fun x hx => absurd hx (List.not_mem_nil x), hE⟩
      · refine ⟨c :: s, t, by rw [h]; rfl, ?_, hE⟩
        intro y hy
        rcases List.mem_cons.mp hy with h1 | h1
        · rw [h1]; exact hc
        · exact hs y h1
  · constructor
    · rintro ⟨s, x, t, h, hx, hs, hE⟩
      cases s with
      | nil =>
        simp only [List.nil_append, List.cons.injEq] at h
        exact absurd (h.1 ▸ hx) hc
      | cons y s =>
        simp only [List.cons_append, List.cons.injEq] at h
        obtain ⟨hy, hbs⟩ := h
        subst hy
        exact ⟨s, x, t, hbs, hx, fun z hz => hs z (List.mem_cons_of_mem _ hz), hE⟩
    · rintro ⟨s, x, t, h, hx, hs, hE⟩
      refine ⟨c :: s, x, t, by rw [h]; rfl, hx, ?_, hE⟩
      intro y hy
      rcases List.mem_cons.mp hy with h1 | h1
      · rw [h1]; exact hc
      · exact hs y h1

theorem occurs_shift (m0 : Byte) (tl done todo : List Byte) (t0 c : Byte)
    (hm : done ++ t0 :: todo = m0 :: tl) (hfirst : m0 ∉ tl) (hc : c ≠ t0) (s : List Byte) :
    (m0 :: tl) <:+: done ++ c :: s ↔ (m0 :: tl) <:+: c :: s := by
  constructor
  · rintro ⟨pre, post, h⟩
    rw [List.append_assoc] at h
    rcases List.append_eq_append_iff.mp h with ⟨a, ha1, ha2⟩ | ⟨a, ha1, ha2⟩
    · cases pre with
      | nil =>
        simp only [List.nil_append] at ha1
        rw [← hm, ← ha1, List.append_assoc, List.append_cancel_left_eq] at ha2
        simp only [List.cons_append, List.cons.injEq] at ha2
        exact absurd ha2.1.symm hc
      | cons p0 pre =>
        cases a with
        | nil =>
          simp only [List.nil_append] at ha2
          exact ⟨[], post, by simpa using ha2⟩
        | cons a0 a =>
          simp only [List.cons_append, List.cons.injEq] at ha2
          rw [ha1] at hm
          simp only [List.cons_append, List.append_assoc, List.cons.injEq] at hm
          have : a0 ∈ tl := by
            rw [← hm.2]
            simp
          rw [← ha2.1] at this
          exact absurd this hfirst
    · exact ⟨a, post, by rw [ha2, List.append_assoc]⟩
  · rintro ⟨pre, post, h⟩
    exact ⟨done ++ pre, post, by rw [← h]; simp⟩

theorem occurs_skip (m0 : Byte) (tl : List Byte) (c : Byte) (hc : c ≠ m0) (s : List Byte) :
    (m0 :: tl) <:+: c :: s ↔ (m0 :: tl) <:+: s := by
  rw [List.infix_cons_iff]
  constructor
  · rintro (h | h)
    · exact absurd (List.cons_prefix_cons.mp h).1.symm hc
    · exact h
  · exact Or.inr

/-- The detector, started with the bytes `done` of the magic recognized, for a
magic whose first byte does not occur again in it. -/
theorem check_ack_loop_spec (m0 : Byte) (tl : List Byte) (hfirst : m0 ∉ tl) :
    ∀ (polls : List (Option Byte)) (done todo : List Byte),
      done ++ todo = m0 :: tl → todo ≠ [] → no_cancel done →
      ((check_ack_loop (m0 :: tl) done.length polls).1 = .ACK_OK ↔
        reached (fun s => (m0 :: tl) <:+: done ++ s) (pending polls)) ∧
      ((check_ack_loop (m0 :: tl) done.length polls).1 = .ACK_CANCELLED ↔
        cancelled_first (fun s => (m0 :: tl) <:+: done ++ s) (pending polls)) := by
  intro polls
  induction polls with
  | nil =>
    intro done todo hm htodo _
    have hE0 : ¬ (m0 :: tl) <:+: done ++ [] := by
      intro h
      have h1 := h.length_le
      have h2 := congrArg List.length hm
      cases todo with
      | nil => exact htodo rfl
      | cons t0 todo =>
        simp only [List.length_append, List.length_cons, List.length_nil] at h1 h2
        omega
    have hn := reached_nil (fun s => (m0 :: tl) <:+: done ++ s)
    simp only [check_ack_loop, pending, List.filterMap_nil]
    refine ⟨⟨fun h => AckStatus.noConfusion h, fun h => absurd (hn.1.mp h) hE0⟩,
      ⟨fun h => AckStatus.noConfusion h, fun h => absurd h hn.2⟩⟩
  | cons o polls ih =>
    intro done todo hm htodo hdone
    cases o with
    | none =>
      simp only [check_ack_loop, pending, List.filterMap_cons_none, id]
      exact ih done todo hm htodo hdone
    | some c =>
      have hpend : pending (some c :: polls) = c :: pending polls := by
        simp [pending]
      rw [hpend]
      cases todo with
      | nil => exact absurd rfl htodo
      | cons t0 todo =>
        have hlen := congrArg List.length hm
        simp only [List.length_append, List.length_cons] at hlen
        have hE0 : ¬ (m0 :: tl) <:+: done ++ [] := by
          intro h
          have h1 := h.length_le
          simp only [List.length_append, List.length_cons, List.length_nil] at h1
          omega
        have hidx : (m0 :: tl)[done.length]? = some t0 := by
          rw [← hm, List.getElem?_append_right (le_refl _)]
          simp
        rw [check_ack_loop]
        by_cases hcan : c = 81 ∨ c = 27
        · rw [if_pos hcan]
          have hr := reached_cons_cancel (fun s => (m0 :: tl) <:+: done ++ s) c (pending polls)
            hcan
          refine ⟨⟨fun h => AckStatus.noConfusion h, fun h => absurd (hr.1.mp h) hE0⟩,
            ⟨fun _ => hr.2.mpr hE0, fun _ => rfl⟩⟩
        · rw [if_neg hcan]
          have hr := reached_cons (fun s => (m0 :: tl) <:+: done ++ s) c (pending polls) hcan
          rw [hr.1, hr.2, hidx]
          by_cases hmatch : c = t0
          · subst hmatch
            rw [if_pos rfl]
            by_cases hlast : done.length + 1 = (m0 :: tl).length
            · rw [if_pos hlast]
              have htodo0 : todo = [] := by
                simp only [List.length_cons] at hlast
                exact List.length_eq_zero.mp (by omega)
              rw [htodo0] at hm
              have hall : ∀ s, (m0 :: tl) <:+: done ++ c :: s := by
                intro s
                exact ⟨[], s, by rw [← hm]; simp⟩
              refine ⟨⟨fun _ => Or.inr ⟨[], pending polls, rfl,
                  fun x hx => absurd hx (List.not_mem_nil x), hall []⟩, fun _ => rfl⟩,
                ⟨fun h => AckStatus.noConfusion h, ?_⟩⟩
              rintro ⟨s, x, t, _, _, _, hE⟩
              exact absurd (hall s) hE
            · rw [if_neg hlast]
              have htodo1 : todo ≠ [] := by
                intro h
                rw [h] at hlen
                simp only [List.length_cons, List.length_nil] at hlast hlen
                omega
              have hdone1 : no_cancel (done ++ [c]) := by
                intro x hx
                rcases List.mem_append.mp hx with h | h
                · exact hdone x h
                · rw [List.mem_singleton.mp h]; exact hcan
              have := ih (done ++ [c]) todo (by rw [← hm]; simp) htodo1 hdone1
              rw [List.length_append, List.length_singleton] at this
              rw [this.1, this.2]
              have hc := reached_congr (fun s => (m0 :: tl) <:+: done ++ [c] ++ s)
                (fun s => (m0 :: tl) <:+: done ++ c :: s)
                (fun s => by
                  show (m0 :: tl) <:+: done ++ [c] ++ s ↔ (m0 :: tl) <:+: done ++ c :: s
                  rw [List.append_assoc, List.singleton_append]) (pending polls)
              rw [hc.1, hc.2]
              exact ⟨⟨Or.inr, fun h => h.resolve_left hE0⟩, Iff.rfl⟩
          · have hne : ¬ some t0 = some c := fun h => hmatch (Option.some.inj h).symm
            rw [if_neg hne]
            simp only [List.getElem?_cons_zero]
            by_cases h0 : c = m0
            · rw [if_pos (by rw [h0])]
              have htl : tl ≠ [] := by
                intro h
                rw [h] at hm
                cases done with
                | nil =>
                  simp only [List.nil_append, List.cons.injEq] at hm
                  exact hmatch (h0.trans hm.1.symm)
                | cons d done =>
                  simp only [List.cons_append, List.cons.injEq] at hm
                  have := congrArg List.length hm.2
                  simp at this
              have hd1 : no_cancel [m0] := by
                intro x hx
                rw [List.mem_singleton.mp hx, ← h0]
                exact hcan
              have := ih [m0] tl rfl htl hd1
              simp only [List.length_singleton] at this
              rw [this.1, this.2]
              have hc := reached_congr (fun s => (m0 :: tl) <:+: [m0] ++ s)
                (fun s => (m0 :: tl) <:+: done ++ c :: s)
                (fun s => by
                  show (m0 :: tl) <:+: [m0] ++ s ↔ (m0 :: tl) <:+: done ++ c :: s
                  rw [occurs_shift m0 tl done todo t0 c hm hfirst hmatch s, h0]
                  rfl) (pending polls)
              rw [hc.1, hc.2]
              exact ⟨⟨Or.inr, fun h => h.resolve_left hE0⟩, Iff.rfl⟩
            · rw [if_neg (fun h => h0 (Option.some.inj h).symm)]
              have hd0 : no_cancel [] := fun x hx => absurd hx (List.not_mem_nil x)
              have := ih [] (m0 :: tl) rfl (List.cons_ne_nil _ _) hd0
              simp only [List.length_nil] at this
              rw [this.1, this.2]
              have hc := reached_congr (fun s => (m0 :: tl) <:+: [] ++ s)
                (fun s => (m0 :: tl) <:+: done ++ c :: s)
                (fun s => by
                  show (m0 :: tl) <:+: [] ++ s ↔ (m0 :: tl) <:+: done ++ c :: s
                  rw [occurs_shift m0 tl done todo t0 c hm hfirst hmatch s,
                    occurs_skip m0 tl c h0 s]
                  rfl) (pending polls)
              rw [hc.1, hc.2]
              exact ⟨⟨Or.inr, fun h => h.resolve_left hE0⟩, Iff.rfl⟩

theorem reached_mono (E F : List Byte → Prop) (h : ∀ s, E s → F s) (bs : List Byte) :
    (reached E bs → reached F bs) ∧ (cancelled_first F bs → cancelled_first E bs) := by
  constructor
  · rintro ⟨s, t, hbs, hs, hE⟩
    exact ⟨s, t, hbs, hs, h s hE⟩
  · rintro ⟨s, c, t, hbs, hc, hs, hF⟩
    exact ⟨s, c, t, hbs, hc, hs, fun hE => hF (h s hE)⟩

/-- For any magic: an acknowledgment is backed by an appearance of the magic,
and a cancel character that comes first is honoured. -/
theorem check_ack_loop_sound (str : List Byte) :
    ∀ (polls : List (Option Byte)) (done todo : List Byte),
      done ++ todo = str → todo ≠ [] →
      ((check_ack_loop str done.length polls).1 = .ACK_OK →
        reached (fun s => str <:+: done ++ s) (pending polls)) ∧
      (cancelled_first (fun s => str <:+: done ++ s) (pending polls) →
        (check_ack_loop str done.length polls).1 = .ACK_CANCELLED) := by
  intro polls
  induction polls with
  | nil =>
    intro done todo _ _
    have hn := reached_nil (fun s => str <:+: done ++ s)
    simp only [check_ack_loop, pending, List.filterMap_nil]
    exact ⟨fun h => AckStatus.noConfusion h, fun h => absurd h hn.2⟩
  | cons o polls ih =>
    intro done todo hm htodo
    cases o with
    | none =>
      simp only [check_ack_loop, pending, List.filterMap_cons_none, id]
      exact ih done todo hm htodo
    | some c =>
      have hpend : pending (some c :: polls) = c :: pending polls := by
        simp [pending]
      rw [hpend]
      cases todo with
      | nil => exact absurd rfl htodo
      | cons t0 todo =>
        have hidx : str[done.length]? = some t0 := by
          rw [← hm, List.getElem?_append_right (le_refl _)]
          simp
        rw [check_ack_loop]
        by_cases hcan : c = 81 ∨ c = 27
        · rw [if_pos hcan]
          exact ⟨fun h => AckStatus.noConfusion h, fun _ => rfl⟩
        · rw [if_neg hcan]
          have hr := reached_cons (fun s => str <:+: done ++ s) c (pending polls) hcan
          rw [hr.1, hr.2, hidx]
          have hback : ∀ (d : List Byte), d <:+ done ++ [c] →
              ∀ s, str <:+: d ++ s → str <:+: done ++ c :: s := by
            rintro d ⟨u, hu⟩ s ⟨pre, post, h⟩
            refine ⟨u ++ pre, post, ?_⟩
            rw [show done ++ c :: s = (done ++ [c]) ++ s by simp, ← hu, List.append_assoc u d s,
              ← h]
            simp
          have hnext : ∀ (d e : List Byte), d ++ e = str → e ≠ [] → d <:+ done ++ [c] →
              ((check_ack_loop str d.length polls).1 = .ACK_OK →
                str <:+: done ++ [] ∨
                  reached (fun s => str <:+: done ++ c :: s) (pending polls)) ∧
              (cancelled_first (fun s => str <:+: done ++ c :: s) (pending polls) →
                (check_ack_loop str d.length polls).1 = .ACK_CANCELLED) := by
            intro d e hde he hd
            have h1 := ih d e hde he
            have h2 := reached_mono (fun s => str <:+: d ++ s)
              (fun s => str <:+: done ++ c :: s) (hback d hd) (pending polls)
            exact ⟨fun h => Or.inr (h2.1 (h1.1 h)), fun h => h1.2 (h2.2 h)⟩
          by_cases hmatch : c = t0
          · subst hmatch
            rw [if_pos rfl]
            by_cases hlast : done.length + 1 = str.length
            · rw [if_pos hlast]
              have htodo0 : todo = [] := by
                have := congrArg List.length hm
                simp only [List.length_append, List.length_cons] at this
                exact List.length_eq_zero.mp (by omega)
              rw [htodo0] at hm
              have hall : ∀ s, str <:+: done ++ c :: s := by
                intro s
                exact ⟨[], s, by rw [← hm]; simp⟩
              refine ⟨fun _ => Or.inr ⟨[], pending polls, rfl,
                fun x hx => absurd hx (List.not_mem_nil x), hall []⟩, ?_⟩
              rintro ⟨s, x, t, _, _, _, hE⟩
              exact absurd (hall s) hE
            · rw [if_neg hlast]
              have htodo1 : todo ≠ [] := by
                intro h
                have := congrArg List.length hm
                rw [h] at this
                simp only [List.length_append, List.length_cons, List.length_nil] at this
                omega
              have := hnext (done ++ [c]) todo (by rw [← hm]; simp) htodo1
                (List.suffix_refl _)
              rw [List.length_append, List.length_singleton] at this
              exact this
          · have hne : ¬ some t0 = some c := fun h => hmatch (Option.some.inj h).symm
            rw [if_neg hne]
            cases hstr : str with
            | nil =>
              rw [hstr] at hm
              have := congrArg List.length hm
              simp at this
            | cons m0 tl =>
              simp only [List.getElem?_cons_zero]
              rw [← hstr]
              by_cases h0 : c = m0
              · rw [if_pos (by rw [h0])]
                have htl : tl ≠ [] := by
                  intro h
                  rw [hstr, h] at hm
                  cases done with
                  | nil =>
                    simp only [List.nil_append, List.cons.injEq] at hm
                    exact hmatch (h0.trans hm.1.symm)
                  | cons d done =>
                    simp only [List.cons_append, List.cons.injEq] at hm
                    have := congrArg List.length hm.2
                    simp at this
                have := hnext [m0] tl hstr.symm htl ⟨done, by rw [h0]⟩
                simp only [List.length_singleton] at this
                exact this
              · rw [if_neg (fun h => h0 (Option.some.inj h).symm)]
                have := hnext [] str rfl (by rw [hstr]; exact List.cons_ne_nil _ _)
                  ⟨done ++ [c], by simp⟩
                simp only [List.length_nil] at this
                exact this

/-- C7, as stated, fails: the bytes "ababac", free of cancel characters,
contain the magic "abac" contiguously, and the detector returns Timeout. -/
theorem c7_misses_overlapping_magic :
    ([97, 98, 97, 99] : List Byte) <:+: pending ababac_polls ∧
    no_cancel (pending ababac_polls) ∧
    (check_ack [97, 98, 97, 99] ababac_polls).1 = .ACK_TIMEOUT := by
  refine ⟨⟨[97, 98], [], rfl⟩, ?_, by decide⟩
  intro c hc
  have hbytes : pending ababac_polls = [97, 98, 97, 98, 97, 99] := rfl
  rw [hbytes] at hc
  simp only [List.mem_cons, List.mem_singleton, List.not_mem_nil, or_false] at hc
  rcases hc with h | h | h | h | h | h <;> rw [h] <;> decide

/-- C7, amended: for every magic, the detector returns Acknowledged only if
the magic appears contiguously in the bytes delivered before the timer
expires, with no cancel character up to the end of that appearance, and it
returns Cancelled whenever a cancel character comes first.  For every magic
whose first byte does not occur again in it, it returns Acknowledged exactly
when the magic so appears, Cancelled exactly when a cancel character comes
first, and Timeout otherwise. -/
theorem c7_handshake_detector (m0 : Byte) (tl : List Byte) (polls : List (Option Byte)) :
    ((check_ack (m0 :: tl) polls).1 = .ACK_OK →
      magic_before_cancel (m0 :: tl) (pending polls)) ∧
    (cancel_before_magic (m0 :: tl) (pending polls) →
      (check_ack (m0 :: tl) polls).1 = .ACK_CANCELLED) ∧
    (m0 ∉ tl →
      ((check_ack (m0 :: tl) polls).1 = .ACK_OK ↔
        magic_before_cancel (m0 :: tl) (pending polls)) ∧
      ((check_ack (m0 :: tl) polls).1 = .ACK_CANCELLED ↔
        cancel_before_magic (m0 :: tl) (pending polls)) ∧
      ((check_ack (m0 :: tl) polls).1 = .ACK_TIMEOUT ↔
        ¬ magic_before_cancel (m0 :: tl) (pending polls) ∧
        ¬ cancel_before_magic (m0 :: tl) (pending polls))) := by
  have hs := check_ack_loop_sound (m0 :: tl) polls [] (m0 :: tl) rfl (List.cons_ne_nil _ _)
  simp only [List.length_nil, List.nil_append] at hs
  refine ⟨hs.1, hs.2, ?_⟩
  intro hfirst
  have hc := check_ack_loop_spec m0 tl hfirst polls [] (m0 :: tl) rfl (List.cons_ne_nil _ _)
    (fun x hx => absurd hx (List.not_mem_nil x))
  simp only [List.length_nil, List.nil_append] at hc
  refine ⟨hc.1, hc.2, ?_⟩
  unfold check_ack
  unfold magic_before_cancel cancel_before_magic
  rw [← hc.1, ← hc.2]
  cases (check_ack_loop (m0 :: tl) 0 polls).1 <;> simp

theorem c7_witness :
    (check_ack sample.SFL_MAGIC_ACK (none :: some 5 :: ack_polls)).1 = .ACK_OK ↔
      magic_before_cancel sample.SFL_MAGIC_ACK (pending (none :: some 5 :: ack_polls)) :=
  ((c7_handshake_detector 122 [54, 73, 72, 71, 55, 99, 89, 68, 73, 68, 54, 111, 10]
    (none :: some 5 :: ack_polls)).2.2 (by decide)).1

/-- The idle polls before the next byte do not change the detector. -/
theorem check_ack_loop_next_byte (str : List Byte) :
    ∀ (polls : List (Option Byte)) (c : Byte) (bs : List Byte), pending polls = c :: bs →
      ∃ later, pending later = bs ∧
        ∀ r, check_ack_loop str r polls = check_ack_loop str r (some c :: later) := by
  intro polls
  induction polls with
  | nil => intro c bs h; simp [pending] at h
  | cons o polls ih =>
    intro c bs h
    cases o with
    | none =>
      have h1 : pending polls = c :: bs := by simpa [pending] using h
      obtain ⟨later, hl, hr⟩ := ih c bs h1
      refine ⟨later, hl, fun r => ?_⟩
      rw [← hr r]
      simp only [check_ack_loop]
    | some x =>
      have h1 : x = c ∧ pending polls = bs := by simpa [pending] using h
      exact ⟨polls, h1.2, fun r => by rw [h1.1]⟩

/-- Bytes that continue the magic from where the detector stands lead to
Acknowledged. -/
theorem check_ack_loop_match (str : List Byte) :
    ∀ (polls : List (Option Byte)) (done todo extra : List Byte),
      done ++ todo = str → todo ≠ [] → no_cancel todo → pending polls = todo ++ extra →
      (check_ack_loop str done.length polls).1 = .ACK_OK := by
  intro polls
  induction polls with
  | nil =>
    intro done todo extra _ htodo _ hp
    cases todo with
    | nil => exact absurd rfl htodo
    | cons t0 todo => simp [pending] at hp
  | cons o polls ih =>
    intro done todo extra hm htodo hnc hp
    cases o with
    | none =>
      simp only [check_ack_loop]
      exact ih done todo extra hm htodo hnc (by simpa [pending] using hp)
    | some c =>
      cases todo with
      | nil => exact absurd rfl htodo
      | cons t0 todo =>
        have h1 : c = t0 ∧ pending polls = todo ++ extra := by simpa [pending] using hp
        have hcan : ¬ (c = 81 ∨ c = 27) := by
          rw [h1.1]
          exact hnc t0 (List.mem_cons_self _ _)
        have hidx : str[done.length]? = some c := by
          rw [← hm, List.getElem?_append_right (le_refl _), h1.1]
          simp
        rw [check_ack_loop, if_neg hcan, if_pos hidx]
        by_cases hlast : done.length + 1 = str.length
        · rw [if_pos hlast]
        · rw [if_neg hlast]
          have htodo1 : todo ≠ [] := by
            intro h
            have := congrArg List.length hm
            rw [h] at this
            simp only [List.length_append, List.length_cons, List.length_nil] at this
            omega
          have := ih (done ++ [t0]) todo extra (by rw [← hm]; simp) htodo1
            (fun x hx => hnc x (List.mem_cons_of_mem _ hx)) h1.2
          rw [List.length_append, List.length_singleton] at this
          exact this

theorem doubled_first_all_equal (m0 : Byte) :
    ∀ tl : List Byte, (∀ x ∈ tl, x = m0) → m0 :: m0 :: tl = (m0 :: tl) ++ [m0] := by
  intro tl
  induction tl with
  | nil => intro _; rfl
  | cons t tl ih =>
    intro h
    have ht : t = m0 := h t (List.mem_cons_self _ _)
    have := ih (fun x hx => h x (List.mem_cons_of_mem _ hx))
    rw [ht, List.cons_append, ← this]

theorem sample_magic_no_cancel : no_cancel sample.SFL_MAGIC_ACK := by
  intro c hc
  have hm : sample.SFL_MAGIC_ACK
      = [122, 54, 73, 72, 71, 55, 99, 89, 68, 73, 68, 54, 111, 10] := rfl
  rw [hm] at hc
  simp only [List.mem_cons, List.mem_singleton, List.not_mem_nil, or_false] at hc
  rcases hc with h | h | h | h | h | h | h | h | h | h | h | h | h | h <;>
    rw [h] <;> decide

/-- C8: prefix restart.  For the acknowledgment magic `m`, a constant of
`sfl.h` that holds no cancel character and whose second byte differs from its
first (or whose bytes are all equal), as is the case of the magic of the
protocol, the bytes `m[0], m[0], m[1], ..., m[len-1]`, however the polls
before the timer expires deliver them, lead to Acknowledged. -/
theorem c8_restart_on_first_byte (m0 : Byte) (tl : List Byte) (polls : List (Option Byte))
    (hnc : no_cancel (m0 :: tl))
    (hsecond : tl.head? ≠ some m0 ∨ ∀ x ∈ tl, x = m0)
    (hp : pending polls = m0 :: m0 :: tl) :
    (check_ack (m0 :: tl) polls).1 = .ACK_OK := by
  rcases hsecond with hsecond | hall
  · have hcan : ¬ (m0 = 81 ∨ m0 = 27) := hnc m0 (List.mem_cons_self _ _)
    obtain ⟨polls1, hp1, h1⟩ := check_ack_loop_next_byte (m0 :: tl) polls m0 (m0 :: tl) hp
    unfold check_ack
    rw [h1 0, check_ack_loop, if_neg hcan, if_pos (by simp)]
    by_cases hlast : 0 + 1 = (m0 :: tl).length
    · rw [if_pos hlast]
    · rw [if_neg hlast]
      have htl : tl ≠ [] := by
        intro h
        rw [h] at hlast
        simp at hlast
      obtain ⟨polls2, hp2, h2⟩ := check_ack_loop_next_byte (m0 :: tl) polls1 m0 tl hp1
      have hidx : ¬ (m0 :: tl)[0 + 1]? = some m0 := by
        cases tl with
        | nil => exact absurd rfl htl
        | cons t0 tl =>
          simp only [List.head?_cons, ne_eq] at hsecond
          simpa using hsecond
      rw [h2 (0 + 1), check_ack_loop, if_neg hcan, if_neg hidx, if_pos (by simp)]
      exact check_ack_loop_match (m0 :: tl) polls2 [m0] tl [] rfl htl
        (fun x hx => hnc x (List.mem_cons_of_mem _ hx)) (by simpa using hp2)
  · rw [doubled_first_all_equal m0 tl hall] at hp
    exact check_ack_loop_match (m0 :: tl) polls [] (m0 :: tl) [m0] rfl (List.cons_ne_nil _ _)
      hnc hp

theorem c8_witness :
    (check_ack sample.SFL_MAGIC_ACK doubled_first_polls).1 = .ACK_OK ∧
    (check_ack (122 :: [76]) zzl_polls).1 = .ACK_OK ∧
    (check_ack (97 :: [97, 97]) aaaa_polls).1 = .ACK_OK :=
  ⟨c8_restart_on_first_byte 122 [54, 73, 72, 71, 55, 99, 89, 68, 73, 68, 54, 111, 10]
      doubled_first_polls sample_magic_no_cancel (Or.inl (by decide)) rfl,
   c8_restart_on_first_byte 122 [76] zzl_polls
    (by
      intro c hc
      simp only [List.mem_cons, List.mem_singleton, List.not_mem_nil, or_false] at hc
      rcases hc with h | h <;> rw [h] <;> decide)
    (Or.inl (by decide)) rfl,
   c8_restart_on_first_byte 97 [97, 97] aaaa_polls
    (by
      intro c hc
      simp only [List.mem_cons, List.mem_singleton, List.not_mem_nil, or_false] at hc
      rcases hc with h | h | h <;> rw [h] <;> decide)
    (Or.inr (by
      intro x hx
      simp only [List.mem_cons, List.mem_singleton, List.not_mem_nil, or_false] at hx
      rcases hx with h | h <;> exact h)) rfl⟩

/-! ## The frame loop ends -/

theorem uart_read_some (w w1 : World) (c : Byte) (h : uart_read w = some (c, w1)) :
    w1.rx.length + 1 = w.rx.length := by
  unfold uart_read at h
  cases hrx : w.rx with
  | nil => rw [hrx] at h; cases h
  | cons x rest =>
    rw [hrx] at h
    simp only [Option.some.injEq, Prod.mk.injEq] at h
    rw [← h.2]
    rfl

theorem read_payload_some :
    ∀ (n i : Nat) (payload payload1 : Nat → Byte) (w w1 : World),
      read_payload n i payload w = some (payload1, w1) → w1.rx.length ≤ w.rx.length := by
  intro n
  induction n with
  | zero =>
    intro i payload payload1 w w1 h
    simp only [read_payload, Option.some.injEq, Prod.mk.injEq] at h
    rw [h.2]
  | succ n ih =>
    intro i payload payload1 w w1 h
    simp only [read_payload] at h
    cases hr : uart_read w with
    | none => rw [hr] at h; cases h
    | some r =>
      obtain ⟨c, w2⟩ := r
      rw [hr] at h
      have h1 := uart_read_some w w2 c hr
      have h2 := ih _ _ _ _ _ h
      omega

theorem grab_frame_some (frame frame1 : Frame) (w w1 : World)
    (h : grab_frame frame w = some (frame1, w1)) : w1.rx.length + 4 ≤ w.rx.length := by
  unfold grab_frame at h
  cases h1 : uart_read w with
  | none => rw [h1] at h; cases h
  | some r1 =>
    obtain ⟨c1, u1⟩ := r1
    rw [h1] at h
    simp only at h
    cases h2 : uart_read u1 with
    | none => rw [h2] at h; cases h
    | some r2 =>
      obtain ⟨c2, u2⟩ := r2
      rw [h2] at h
      simp only at h
      cases h3 : uart_read u2 with
      | none => rw [h3] at h; cases h
      | some r3 =>
        obtain ⟨c3, u3⟩ := r3
        rw [h3] at h
        simp only at h
        cases h4 : uart_read u3 with
        | none => rw [h4] at h; cases h
        | some r4 =>
          obtain ⟨c4, u4⟩ := r4
          rw [h4] at h
          simp only at h
          cases h5 : read_payload c1.val 0 frame.payload u4 with
          | none => rw [h5] at h; cases h
          | some r5 =>
            obtain ⟨pl, u5⟩ := r5
            rw [h5] at h
            simp only [Option.some.injEq, Prod.mk.injEq] at h
            have e1 := uart_read_some _ _ _ h1
            have e2 := uart_read_some _ _ _ h2
            have e3 := uart_read_some _ _ _ h3
            have e4 := uart_read_some _ _ _ h4
            have e5 := read_payload_some _ _ _ _ _ _ h5
            rw [← h.2]
            omega

theorem dispatch_rx (cfg : Config) (failed : Nat) (frame : Frame) (w : World) :
    (dispatch cfg failed frame w).world.rx = w.rx := by
  unfold dispatch
  simp only
  split_ifs <;>
    simp [Step.world, printf, uart_write, World.emit, load_loop_rx, (boot_rest _ _ _ _ _ _).1]

/-- An iteration after which the loop goes on has consumed at least the four
header bytes of a frame. -/
theorem loop_body_consumes (cfg : Config) (failed : Nat) (frame : Frame) (w : World)
    (f : Nat) (fr : Frame) (w1 : World) (h : loop_body cfg failed frame w = .running f fr w1) :
    w1.rx.length + 4 ≤ w.rx.length := by
  unfold loop_body at h
  cases hg : grab_frame frame w with
  | none => rw [hg] at h; cases h
  | some r =>
    obtain ⟨fr0, w0⟩ := r
    rw [hg] at h
    simp only at h
    have h1 := grab_frame_some frame fr0 w w0 hg
    have h2 := dispatch_rx cfg failed fr0 w0
    rw [h] at h2
    simp only [Step.world] at h2
    rw [h2]
    exact h1

/-- The loop has ended within as many iterations as there are bytes to come,
plus one. -/
theorem frame_loop_ends (cfg : Config) :
    ∀ (n failed : Nat) (frame : Frame) (w : World), w.rx.length < n →
      ∀ (f : Nat) (fr : Frame) (w1 : World),
        frame_loop cfg n failed frame w ≠ .running f fr w1 := by
  intro n
  induction n with
  | zero => intro failed frame w h; omega
  | succ n ih =>
    intro failed frame w hlt f fr w1
    simp only [frame_loop]
    cases hb : loop_body cfg failed frame w with
    | running f0 fr0 w0 =>
      have := loop_body_consumes cfg failed frame w f0 fr0 w0 hb
      exact ih f0 fr0 w0 (by omega) f fr w1
    | returned r w0 => simp
    | handoff w0 => simp
    | stalled w0 => simp

/-- The function `serialboot` always ends: in a return, in the handoff, or
blocked in `uart_read`. -/
theorem serialboot_ends (cfg : Config) (frame : Frame) (polls : List (Option Byte)) (w : World)
    (f : Nat) (fr : Frame) (w1 : World) :
    serialboot cfg frame polls w ≠ .running f fr w1 := by
  rw [serialboot_unfold]
  cases (check_ack cfg.SFL_MAGIC_ACK polls).1 with
  | ACK_TIMEOUT => simp
  | ACK_CANCELLED => simp
  | ACK_OK => exact frame_loop_ends cfg _ 0 frame _ (Nat.lt_succ_self _) f fr w1

/-! ## The order of the handoff -/

/-- C13, as stated, fails: `boot` drains the transport output with `uart_sync`
before it clears the interrupt mask and disables interrupt delivery, not
after. -/
theorem c13_drains_before_disabling_interrupts :
    (boot sample 1 2 3 4 (world0 [])).trace
      = [.printf (.executing 4), .printf .liftoff, .uart_sync, .irq_setmask 0, .irq_setie 0,
         .flush_cpu_icache, .flush_cpu_dcache, .boot_helper 1 2 3 4] ∧
    (boot sample 1 2 3 4 (world0 [])).trace.indexOf Event.uart_sync
      < (boot sample 1 2 3 4 (world0 [])).trace.indexOf (Event.irq_setmask 0) ∧
    (boot sample 1 2 3 4 (world0 [])).trace.indexOf Event.uart_sync
      < (boot sample 1 2 3 4 (world0 [])).trace.indexOf (Event.irq_setie 0) := by
  decide

/-- C13, amended: after its two diagnostics `boot(r1, r2, r3, addr)` performs
its steps in exactly this order: drain the transport output (`uart_sync`),
clear the interrupt mask, disable interrupt delivery, flush the instruction
cache (skipped when `__vexriscv__` is defined), flush the data cache, flush
the secondary cache when `CONFIG_L2_SIZE` is defined, and call the trampoline
with the four words `r1, r2, r3, addr` unchanged; it reads no byte and leaves
memory as it was. -/
theorem c13_boot_order (cfg : Config) (r1 r2 r3 addr : Nat) (w : World) :
    (boot cfg r1 r2 r3 addr w).trace
      = w.trace ++ [.printf (.executing addr), .printf .liftoff]
          ++ [.uart_sync, .irq_setmask 0, .irq_setie 0]
          ++ (if cfg.vexriscv then [] else [.flush_cpu_icache])
          ++ [.flush_cpu_dcache]
          ++ (if cfg.l2_cache then [.flush_l2_cache] else [])
          ++ [.boot_helper r1 r2 r3 addr] ∧
    (boot cfg r1 r2 r3 addr w).rx = w.rx ∧ (boot cfg r1 r2 r3 addr w).mem = w.mem := by
  refine ⟨?_, boot_rest cfg r1 r2 r3 addr w⟩
  rw [boot_trace]
  simp

/-! ## The failure counter and the command -/

/-- C15, as stated, fails: under `sample` a checksum-valid frame with an
unrecognized command received at failure counter 3 leaves the counter at 4,
not 0, and, after four frames with wrong checksums, it makes the loop
return 1. -/
theorem c15_unknown_command_keeps_counting :
    good_unknown.crc_ok sample ∧
    (loop_body sample 3 frame0 (world0 good_unknown.wire)).counter = some 4 ∧
    (frame_loop sample 5 0 frame0 (world0 (wires four_bad_then_unknown))).ret = some 1 := by
  decide

/-- C15, amended: a checksum-valid frame sets the failure counter to 0 when
its command is recognized, the loop going on (with counter 0) for Load,
returning for Abort and handing over for Jump; a checksum-valid frame with an
unrecognized command adds one to the counter, exactly as a checksum mismatch
does, so it does not break a run of earlier failures. -/
theorem c15_counter_after_valid_frame (cfg : Config) (failed : Nat) (frame : Frame)
    (w : World) (p : Packet) (rest : List Byte) (hrx : w.rx = p.wire ++ rest)
    (hlen : p.data.length < 256) (hcrc : p.crc_ok cfg) :
    (p.cmd = cfg.SFL_CMD_ABORT → (loop_body cfg failed frame w).ret = some 1) ∧
    (p.cmd ≠ cfg.SFL_CMD_ABORT → p.cmd = cfg.SFL_CMD_LOAD →
      (loop_body cfg failed frame w).counter = some 0) ∧
    (p.cmd ≠ cfg.SFL_CMD_ABORT → p.cmd ≠ cfg.SFL_CMD_LOAD → p.cmd = cfg.SFL_CMD_JUMP →
      ∃ w', loop_body cfg failed frame w = .handoff w') ∧
    (p.unknown cfg → failed + 1 ≠ MAX_FAILED →
      (loop_body cfg failed frame w).counter = some (failed + 1)) ∧
    (p.unknown cfg → failed + 1 = MAX_FAILED →
      (loop_body cfg failed frame w).ret = some 1) := by
  rw [loop_body_wire cfg failed frame w p rest hrx hlen,
    dispatch_crc_ok cfg failed frame _ p hlen hcrc]
  refine ⟨?_, ?_, ?_, ?_, ?_⟩
  · intro h
    rw [if_pos h]
    rfl
  · intro h1 h2
    rw [if_neg h1, if_pos h2]
    rfl
  · intro h1 h2 h3
    rw [if_neg h1, if_neg h2, if_pos h3]
    exact ⟨_, rfl⟩
  · intro hu hm
    rw [if_neg hu.1, if_neg hu.2.1, if_neg hu.2.2, if_neg hm]
    rfl
  · intro hu hm
    rw [if_neg hu.1, if_neg hu.2.1, if_neg hu.2.2, if_pos hm]
    rfl

theorem c15_witness :
    (loop_body sample 3 frame0 (world0 (good_unknown.wire ++ [5]))).counter = some (3 + 1) ∧
    (loop_body sample 3 frame0 (world0 (good_load.wire ++ [5]))).counter = some 0 :=
  ⟨(c15_counter_after_valid_frame sample 3 frame0 (world0 (good_unknown.wire ++ [5]))
      good_unknown [5] rfl (by decide) (by decide)).2.2.2.1 (by decide) (by decide),
   (c15_counter_after_valid_frame sample 3 frame0 (world0 (good_load.wire ++ [5]))
      good_load [5] rfl (by decide) (by decide)).2.1 (by decide) (by decide)⟩

/-! ## Cancel characters -/

/-- C16: whatever the magic and the number of bytes recognized so far, a poll
that finds a cancel character, Q or ESC alike, makes the detector return
Cancelled at once, also when the magic has that very character at the
current position, and leaves every later poll unmade. -/
theorem c16_cancel_is_immediate (str : List Byte) (recognized : Nat) (c : Byte)
    (polls : List (Option Byte)) (hc : is_cancel c) :
    check_ack_loop str recognized (some c :: polls) = (.ACK_CANCELLED, polls) := by
  have h : c = 81 ∨ c = 27 := hc
  rw [check_ack_loop, if_pos h]

theorem c16_witness :
    check_ack_loop [81, 27] 0 (some 81 :: [some 27]) = (.ACK_CANCELLED, [some 27]) ∧
    check_ack_loop [81, 27] 1 (some 27 :: [some 5]) = (.ACK_CANCELLED, [some 5]) :=
  ⟨c16_cancel_is_immediate [81, 27] 0 81 [some 27] (by decide),
   c16_cancel_is_immediate [81, 27] 1 27 [some 5] (by decide)⟩

/-- C18: the restart rule is not a full suffix automaton: for the magic "aab",
whose first byte is repeated inside it, the bytes "aaab" contain the magic
contiguously and no cancel character, and yet the detector does not return
Acknowledged. -/
theorem c18_restart_rule_is_incomplete :
    ∃ (m : List Byte) (polls : List (Option Byte)),
      m = [97, 97, 98] ∧ pending polls = [97, 97, 97, 98] ∧
      m <:+: pending polls ∧ no_cancel (pending polls) ∧
      (check_ack m polls).1 ≠ .ACK_OK := by
  refine ⟨[97, 97, 98], aaab_polls, rfl, rfl, ⟨[97], [], rfl⟩, ?_, by decide⟩
  intro c hc
  have hbytes : pending aaab_polls = [97, 97, 97, 98] := rfl
  rw [hbytes] at hc
  simp only [List.mem_cons, List.mem_singleton, List.not_mem_nil, or_false] at hc
  rcases hc with h | h | h | h <;> rw [h] <;> decide

/-! ## Short Load frames -/

/-- C20: a checksum-valid Load frame that declares at most four payload bytes
stores nothing: memory is unchanged and the only new action is the success
acknowledgment; the loop goes on with the failure counter at 0 to the bytes
after the frame.  The payload bytes from the declared length on are those the
buffer held before, so with fewer than four declared bytes the address is
decoded from bytes not received in this frame. -/
theorem c20_short_load_stores_nothing (cfg : Config) (failed : Nat) (frame : Frame)
    (w : World) (p : Packet) (rest : List Byte) (hrx : w.rx = p.wire ++ rest)
    (hshort : p.data.length ≤ 4) (hcrc : p.crc_ok cfg)
    (hcmd : p.cmd = cfg.SFL_CMD_LOAD) (hne : cfg.SFL_CMD_LOAD ≠ cfg.SFL_CMD_ABORT) :
    loop_body cfg failed frame w
      = .running 0 (p.into frame)
          { rx := rest, mem := w.mem,
            trace := w.trace ++ [.uart_write cfg.SFL_ACK_SUCCESS] } ∧
    (∀ j, p.data.length ≤ j → (p.into frame).payload j = frame.payload j) ∧
    (p.data.length < 4 → (p.into frame).payload 3 = frame.payload 3) ∧
    (p.data = [] → decode_addr cfg (p.into frame).payload = decode_addr cfg frame.payload) := by
  have hstale : ∀ j, p.data.length ≤ j → (p.into frame).payload j = frame.payload j := by
    intro j hj
    simp only [Packet.into]
    rw [List.getD_eq_getElem?_getD, List.getElem?_eq_none hj]
    rfl
  refine ⟨?_, hstale, fun h => hstale 3 (by omega), ?_⟩
  · rw [load_step cfg failed frame w p rest hrx (by omega) hcrc hcmd hne]
    rw [show p.data.length - 4 = 0 by omega]
    simp [load_loop, uart_write, World.emit]
  · intro h
    unfold decode_addr
    rw [hstale 0 (by simp [h]), hstale 1 (by simp [h]), hstale 2 (by simp [h]),
      hstale 3 (by simp [h])]

theorem c20_witness :
    loop_body sample 2 stale_frame (world0 (empty_load.wire ++ [5]))
      = .running 0 (empty_load.into stale_frame)
          { rx := [5], mem := (world0 (empty_load.wire ++ [5])).mem,
            trace := [.uart_write 75] } ∧
    decode_addr sample (empty_load.into stale_frame).payload = 0x40000007 := by
  have h := c20_short_load_stores_nothing sample 2 stale_frame
    (world0 (empty_load.wire ++ [5])) empty_load [5] rfl (by decide) (by decide) (by decide)
    (by decide)
  refine ⟨h.1, ?_⟩
  rw [h.2.2.2 rfl]
  decide

/-! ## A whole session: handshake, Load, Jump -/

/-- When the bytes that continue the magic are followed by `extra`, the polls
left unmade hold exactly `extra`. -/
theorem check_ack_loop_match_rest (str : List Byte) :
    ∀ (polls : List (Option Byte)) (done todo extra : List Byte),
      done ++ todo = str → todo ≠ [] → no_cancel todo → pending polls = todo ++ extra →
      pending (check_ack_loop str done.length polls).2 = extra := by
  intro polls
  induction polls with
  | nil =>
    intro done todo extra _ htodo _ hp
    cases todo with
    | nil => exact absurd rfl htodo
    | cons t0 todo => simp [pending] at hp
  | cons o polls ih =>
    intro done todo extra hm htodo hnc hp
    cases o with
    | none =>
      simp only [check_ack_loop]
      exact ih done todo extra hm htodo hnc (by simpa [pending] using hp)
    | some c =>
      cases todo with
      | nil => exact absurd rfl htodo
      | cons t0 todo =>
        have h1 : c = t0 ∧ pending polls = todo ++ extra := by simpa [pending] using hp
        have hcan : ¬ (c = 81 ∨ c = 27) := by
          rw [h1.1]
          exact hnc t0 (List.mem_cons_self _ _)
        have hidx : str[done.length]? = some c := by
          rw [← hm, List.getElem?_append_right (le_refl _), h1.1]
          simp
        rw [check_ack_loop, if_neg hcan, if_pos hidx]
        by_cases hlast : done.length + 1 = str.length
        · rw [if_pos hlast]
          have htodo0 : todo = [] := by
            have := congrArg List.length hm
            simp only [List.length_append, List.length_cons] at this
            exact List.length_eq_zero.mp (by omega)
          rw [h1.2, htodo0]
          rfl
        · rw [if_neg hlast]
          have htodo1 : todo ≠ [] := by
            intro h
            have := congrArg List.length hm
            rw [h] at this
            simp only [List.length_append, List.length_cons, List.length_nil] at this
            omega
          have := ih (done ++ [t0]) todo extra (by rw [← hm]; simp) htodo1
            (fun x hx => hnc x (List.mem_cons_of_mem _ hx)) h1.2
          rw [List.length_append, List.length_singleton] at this
          exact this

theorem jump_step (cfg : Config) (failed : Nat) (frame : Frame) (w : World) (p : Packet)
    (rest : List Byte) (hrx : w.rx = p.wire ++ rest) (hlen : p.data.length < 256)
    (hcrc : p.crc_ok cfg) (hcmd : p.cmd = cfg.SFL_CMD_JUMP)
    (hne1 : cfg.SFL_CMD_JUMP ≠ cfg.SFL_CMD_ABORT) (hne2 : cfg.SFL_CMD_JUMP ≠ cfg.SFL_CMD_LOAD) :
    loop_body cfg failed frame w
      = .handoff (boot cfg 0 0 0 (decode_addr cfg (p.into frame).payload)
          (uart_write cfg.SFL_ACK_SUCCESS { w with rx := rest })) := by
  rw [loop_body_wire cfg failed frame w p rest hrx hlen,
    dispatch_crc_ok cfg failed frame _ p hlen hcrc]
  rw [if_neg (by rw [hcmd]; exact hne1), if_neg (by rw [hcmd]; exact hne2), if_pos hcmd]

theorem stores_of_stores (f : Nat → Nat) (g : Nat → Byte) (l : List Nat) :
    stores (l.map (fun j => Event.store (f j) (g j))) = l.map (fun j => (f j, g j)) := by
  induction l with
  | nil => rfl
  | cons a l ih =>
    simp only [stores, List.map_cons, List.filterMap_cons] at ih ⊢
    rw [ih]

/-- The world after a checksum-valid Load packet with a four-byte address. -/
theorem load_effect (cfg : Config) (frame : Frame) (w : World) (p : Packet)
    (a0 a1 a2 a3 : Byte) (data : List Byte) (hdata : p.data = a0 :: a1 :: a2 :: a3 :: data)
    (hlen : p.data.length < 256) (hbits : 32 ≤ cfg.ptr_bits) :
    (∀ j (h : j < data.length),
      (load_loop cfg (p.into frame).payload (p.data.length - 4) 4
        (decode_addr cfg (p.into frame).payload) w).mem
          ((big_endian a0 a1 a2 a3 + j) % 2 ^ cfg.ptr_bits) = data[j]) ∧
    stores (load_loop cfg (p.into frame).payload (p.data.length - 4) 4
        (decode_addr cfg (p.into frame).payload) w).trace
      = stores w.trace ++ (List.range data.length).map
          (fun j => ((big_endian a0 a1 a2 a3 + j) % 2 ^ cfg.ptr_bits, data.getD j 0)) := by
  have hA := decode_addr_into cfg p frame a0 a1 a2 a3 data hdata hbits
  have hAlt : big_endian a0 a1 a2 a3 < 2 ^ cfg.ptr_bits :=
    lt_of_lt_of_le (big_endian_lt a0 a1 a2 a3) (Nat.pow_le_pow_right (by decide) hbits)
  have hn : p.data.length - 4 = data.length := by simp [hdata]
  have hpay : ∀ j, j < data.length → (p.into frame).payload (4 + j) = data.getD j 0 := by
    intro j hj
    simp only [Packet.into, hdata]
    rw [show 4 + j = j + 1 + 1 + 1 + 1 by omega]
    simp only [List.getD_cons_succ]
    simp [List.getD_eq_getElem?_getD, List.getElem?_eq_getElem hj]
  have hdl : data.length ≤ 2 ^ cfg.ptr_bits := by
    have h1 : data.length < 256 := by
      have := hlen
      simp [hdata] at this
      omega
    have h2 : (2 : Nat) ^ 32 ≤ 2 ^ cfg.ptr_bits := Nat.pow_le_pow_right (by decide) hbits
    omega
  rw [hA, hn]
  constructor
  · intro j hj
    rw [load_loop_mem_written cfg _ data.length 4 _ _ hAlt hdl j hj, hpay j hj]
    simp [List.getD_eq_getElem?_getD, List.getElem?_eq_getElem hj]
  · rw [load_loop_trace cfg _ data.length 4 _ _ hAlt]
    have hs := stores_of_stores (fun j => (big_endian a0 a1 a2 a3 + j) % 2 ^ cfg.ptr_bits)
      (fun j => (p.into frame).payload (4 + j)) (List.range data.length)
    simp only [stores] at hs
    simp only [stores, List.filterMap_append]
    rw [hs]
    congr 1
    apply List.map_congr_left
    intro j hj
    rw [hpay j (List.mem_range.mp hj)]

/-- C14: when the handshake polls deliver the acknowledgment magic (a
non-empty magic free of cancel characters) and the bytes after it are one
checksum-valid Load frame writing `data` at the address `A` held in
`a0 a1 a2 a3`, then one checksum-valid Jump frame to `A`, `serialboot` ends in
the handoff and does not return: the trampoline call `(0, 0, 0, A)` is the
last action and the only trampoline call added, the stores of `data` at
`A + j` (in the pointer width) are the only stores added, memory holds `data`
there, and the bytes after the Jump frame stay unread. -/
theorem c14_load_then_jump (cfg : Config) (frame : Frame) (polls : List (Option Byte))
    (w : World) (ld jp : Packet) (extra rest : List Byte) (a0 a1 a2 a3 : Byte)
    (data more : List Byte)
    (hmagic : cfg.SFL_MAGIC_ACK ≠ []) (hnc : no_cancel cfg.SFL_MAGIC_ACK)
    (hp : pending polls = cfg.SFL_MAGIC_ACK ++ extra)
    (hrx : extra ++ w.rx = ld.wire ++ (jp.wire ++ rest))
    (hld : ld.data = a0 :: a1 :: a2 :: a3 :: data) (hldlen : ld.data.length < 256)
    (hldcrc : ld.crc_ok cfg) (hldcmd : ld.cmd = cfg.SFL_CMD_LOAD)
    (hjp : jp.data = a0 :: a1 :: a2 :: a3 :: more) (hjplen : jp.data.length < 256)
    (hjpcrc : jp.crc_ok cfg) (hjpcmd : jp.cmd = cfg.SFL_CMD_JUMP)
    (hne : cfg.SFL_CMD_LOAD ≠ cfg.SFL_CMD_ABORT)
    (hne1 : cfg.SFL_CMD_JUMP ≠ cfg.SFL_CMD_ABORT) (hne2 : cfg.SFL_CMD_JUMP ≠ cfg.SFL_CMD_LOAD)
    (hbits : 32 ≤ cfg.ptr_bits) :
    ∃ w', serialboot cfg frame polls w = .handoff w' ∧
      w'.trace.getLast? = some (.boot_helper 0 0 0 (big_endian a0 a1 a2 a3)) ∧
      handoffs w'.trace = handoffs w.trace ++ [(0, 0, 0, big_endian a0 a1 a2 a3)] ∧
      stores w'.trace = stores w.trace ++ (List.range data.length).map
        (fun j => ((big_endian a0 a1 a2 a3 + j) % 2 ^ cfg.ptr_bits, data.getD j 0)) ∧
      (∀ j (h : j < data.length),
        w'.mem ((big_endian a0 a1 a2 a3 + j) % 2 ^ cfg.ptr_bits) = data[j]) ∧
      (big_endian a0 a1 a2 a3 + data.length ≤ 2 ^ cfg.ptr_bits →
        ∀ j (h : j < data.length), w'.mem (big_endian a0 a1 a2 a3 + j) = data[j]) ∧
      w'.rx = rest := by
  have hack : (check_ack cfg.SFL_MAGIC_ACK polls).1 = .ACK_OK :=
    check_ack_loop_match cfg.SFL_MAGIC_ACK polls [] cfg.SFL_MAGIC_ACK extra rfl hmagic hnc hp
  have hleft : pending (check_ack cfg.SFL_MAGIC_ACK polls).2 = extra :=
    check_ack_loop_match_rest cfg.SFL_MAGIC_ACK polls [] cfg.SFL_MAGIC_ACK extra rfl hmagic
      hnc hp
  have hA := decode_addr_into cfg jp (ld.into frame) a0 a1 a2 a3 more hjp hbits
  have hlong : ∃ n, (ld.wire ++ (jp.wire ++ rest)).length + 1 = n + 1 + 1 := by
    refine ⟨(ld.wire ++ (jp.wire ++ rest)).length - 1, ?_⟩
    simp only [List.length_append, Packet.wire, List.length_cons]
    omega
  obtain ⟨n, hn⟩ := hlong
  have hobs := observe_sent_bytes (cfg.SFL_MAGIC_REQ.takeWhile (fun c => c ≠ 0))
  have hreq1 : stores (request_sent cfg w) = stores w.trace := by
    have h := hobs.1
    simp only [stores] at h
    simp [request_sent, stores, List.filterMap_append, h]
  have hreq2 : handoffs (request_sent cfg w) = handoffs w.trace := by
    have h := hobs.2
    simp only [handoffs] at h
    simp [request_sent, handoffs, List.filterMap_append, h]
  have heff := load_effect cfg frame
    { rx := jp.wire ++ rest, mem := w.mem, trace := request_sent cfg w } ld a0 a1 a2 a3 data
    hld hldlen hbits
  have hsent := load_loop_sent cfg (ld.into frame).payload (ld.data.length - 4) 4
    (decode_addr cfg (ld.into frame).payload)
    { rx := jp.wire ++ rest, mem := w.mem, trace := request_sent cfg w }
  have hrun : serialboot cfg frame polls w
      = .handoff (boot cfg 0 0 0 (big_endian a0 a1 a2 a3)
          (uart_write cfg.SFL_ACK_SUCCESS
            { (uart_write cfg.SFL_ACK_SUCCESS
                (load_loop cfg (ld.into frame).payload (ld.data.length - 4) 4
                  (decode_addr cfg (ld.into frame).payload)
                  { rx := jp.wire ++ rest, mem := w.mem, trace := request_sent cfg w }))
              with rx := rest })) := by
    rw [serialboot_unfold, hack]
    simp only
    rw [hleft, hrx, hn]
    simp only [frame_loop]
    rw [load_step cfg 0 frame _ ld (jp.wire ++ rest) rfl hldlen hldcrc hldcmd hne]
    simp only
    rw [jump_step cfg 0 (ld.into frame) _ jp rest
      (by simp [uart_write, World.emit, load_loop_rx]) hjplen hjpcrc hjpcmd hne1 hne2, hA]
  have hmem : ∀ j (h : j < data.length),
      (boot cfg 0 0 0 (big_endian a0 a1 a2 a3)
          (uart_write cfg.SFL_ACK_SUCCESS
            { (uart_write cfg.SFL_ACK_SUCCESS
                (load_loop cfg (ld.into frame).payload (ld.data.length - 4) 4
                  (decode_addr cfg (ld.into frame).payload)
                  { rx := jp.wire ++ rest, mem := w.mem, trace := request_sent cfg w }))
              with rx := rest })).mem ((big_endian a0 a1 a2 a3 + j) % 2 ^ cfg.ptr_bits)
        = data[j] := by
    intro j hj
    rw [(boot_rest _ _ _ _ _ _).2]
    exact heff.1 j hj
  refine ⟨_, hrun, ?_, ?_, ?_, hmem, ?_, ?_⟩
  · rw [boot_trace, List.getLast?_append]
    rfl
  · rw [(boot_observed _ _ _ _ _ _).2.2]
    have h := hsent.2
    simp only [handoffs] at h hreq2
    simp [uart_write, World.emit, handoffs, List.filterMap_append, h, hreq2]
  · rw [(boot_observed _ _ _ _ _ _).2.1]
    have h := heff.2
    simp only [stores] at h hreq1
    simp only [uart_write, World.emit, stores, List.filterMap_append]
    rw [h, hreq1]
    simp
  · intro hfit j hj
    have := hmem j hj
    rw [Nat.mod_eq_of_lt (by omega)] at this
    exact this
  · rw [(boot_rest _ _ _ _ _ _).1]
    rfl

theorem c14_witness :
    ∃ w', serialboot sample frame0 ack_polls (world0 (good_load.wire ++ (good_jump.wire ++ [9])))
        = .handoff w' ∧
      handoffs w'.trace = [(0, 0, 0, 0x40000000)] ∧
      w'.mem 0x40000000 = 1 ∧ w'.mem 0x40000003 = 4 ∧ w'.rx = [9] := by
  obtain ⟨w', h1, _, h3, _, _, h6, h7⟩ :=
    c14_load_then_jump sample frame0 ack_polls
      (world0 (good_load.wire ++ (good_jump.wire ++ [9]))) good_load good_jump [] [9]
      64 0 0 0 [1, 2, 3, 4] [] (by decide)
      (by
        intro c hc
        have hm : sample.SFL_MAGIC_ACK
            = [122, 54, 73, 72, 71, 55, 99, 89, 68, 73, 68, 54, 111, 10] := rfl
        rw [hm] at hc
        simp only [List.mem_cons, List.mem_singleton, List.not_mem_nil, or_false] at hc
        rcases hc with h | h | h | h | h | h | h | h | h | h | h | h | h | h <;>
          rw [h] <;> decide)
      (by decide) (by rfl) (by rfl) (by decide) (by decide) (by decide) (by rfl) (by decide)
      (by decide) (by decide) (by decide) (by decide) (by decide) (by decide)
  have hfit := h6 (by decide)
  exact ⟨w', h1, h3, hfit 0 (by decide), hfit 3 (by decide), h7⟩

/-! ## Where the detector returns -/

/-- For a magic whose first byte does not occur again in it, an acknowledging
detector returns at the poll that delivers the last byte of the first
appearance of the magic. -/
theorem check_ack_loop_returns_at_first (m0 : Byte) (tl : List Byte) (hfirst : m0 ∉ tl) :
    ∀ (polls : List (Option Byte)) (done todo : List Byte),
      done ++ todo = m0 :: tl → todo ≠ [] →
      (check_ack_loop (m0 :: tl) done.length polls).1 = .ACK_OK →
      ∃ (consumed : List (Option Byte)) (last : Byte),
        polls = consumed ++ some last :: (check_ack_loop (m0 :: tl) done.length polls).2 ∧
        no_cancel (pending consumed ++ [last]) ∧
        (m0 :: tl) <:+ done ++ (pending consumed ++ [last]) ∧
        ∀ s t, pending consumed ++ [last] = s ++ t → t ≠ [] → ¬ (m0 :: tl) <:+: done ++ s := by
  intro polls
  induction polls with
  | nil =>
    intro done todo _ _ h
    simp only [check_ack_loop] at h
    exact AckStatus.noConfusion h
  | cons o polls ih =>
    intro done todo hm htodo hok
    cases o with
    | none =>
      simp only [check_ack_loop] at hok ⊢
      obtain ⟨consumed, last, h1, h2, h3, h4⟩ := ih done todo hm htodo hok
      refine ⟨none :: consumed, last, ?_, ?_, ?_, ?_⟩
      · rw [List.cons_append, ← h1]
      · simpa [pending] using h2
      · simpa [pending] using h3
      · intro s t hst
        exact h4 s t (by simpa [pending] using hst)
    | some c =>
      cases todo with
      | nil => exact absurd rfl htodo
      | cons t0 todo =>
        have hlen := congrArg List.length hm
        simp only [List.length_append, List.length_cons] at hlen
        have hE0 : ¬ (m0 :: tl) <:+: done ++ [] := by
          intro h
          have h1 := h.length_le
          simp only [List.length_append, List.length_cons, List.length_nil] at h1
          omega
        have hidx : (m0 :: tl)[done.length]? = some t0 := by
          rw [← hm, List.getElem?_append_right (le_refl _)]
          simp
        rw [check_ack_loop] at hok ⊢
        by_cases hcan : c = 81 ∨ c = 27
        · rw [if_pos hcan] at hok
          exact AckStatus.noConfusion hok
        · rw [if_neg hcan] at hok ⊢
          rw [hidx] at hok ⊢
          have hnext : ∀ (d e : List Byte), d ++ e = m0 :: tl → e ≠ [] → d <:+ done ++ [c] →
              (∀ s, (m0 :: tl) <:+: done ++ c :: s → (m0 :: tl) <:+: d ++ s) →
              (check_ack_loop (m0 :: tl) d.length polls).1 = .ACK_OK →
              ∃ (consumed : List (Option Byte)) (last : Byte),
                some c :: polls
                  = consumed ++ some last :: (check_ack_loop (m0 :: tl) d.length polls).2 ∧
                no_cancel (pending consumed ++ [last]) ∧
                (m0 :: tl) <:+ done ++ (pending consumed ++ [last]) ∧
                ∀ s t, pending consumed ++ [last] = s ++ t → t ≠ [] →
                  ¬ (m0 :: tl) <:+: done ++ s := by
            intro d e hde he hd hshift hok1
            obtain ⟨consumed, last, h1, h2, h3, h4⟩ := ih d e hde he hok1
            have hpc : pending (some c :: consumed) = c :: pending consumed := by
              simp [pending]
            refine ⟨some c :: consumed, last, ?_, ?_, ?_, ?_⟩
            · rw [List.cons_append, ← h1]
            · rw [hpc]
              intro x hx
              rcases List.mem_cons.mp hx with h | h
              · rw [h]; exact hcan
              · exact h2 x h
            · rw [hpc]
              obtain ⟨u, hu⟩ := hd
              obtain ⟨v, hv⟩ := h3
              refine ⟨u ++ v, ?_⟩
              rw [show done ++ (c :: pending consumed ++ [last])
                = (done ++ [c]) ++ (pending consumed ++ [last]) by simp, ← hu,
                List.append_assoc u d, ← hv]
              simp
            · rw [hpc]
              intro s t hst ht
              cases s with
              | nil => exact hE0
              | cons x s =>
                simp only [List.cons_append, List.cons.injEq] at hst
                rw [← hst.1]
                exact fun h => h4 s t hst.2 ht (hshift s h)
          by_cases hmatch : c = t0
          · subst hmatch
            rw [if_pos rfl] at hok ⊢
            by_cases hlast : done.length + 1 = (m0 :: tl).length
            · rw [if_pos hlast]
              have htodo0 : todo = [] := by
                simp only [List.length_cons] at hlast
                exact List.length_eq_zero.mp (by omega)
              rw [htodo0] at hm
              refine ⟨[], c, rfl, ?_, ?_, ?_⟩
              · intro x hx
                have : x = c := by simpa [pending] using hx
                rw [this]
                exact hcan
              · exact ⟨[], by rw [← hm]; simp [pending]⟩
              · intro s t hst ht
                have hs : s = [] := by
                  have h1 := congrArg List.length hst
                  simp only [pending, List.filterMap_nil, List.nil_append, List.length_cons,
                    List.length_nil, List.length_append] at h1
                  have h2 : 0 < t.length := List.length_pos.mpr ht
                  exact List.length_eq_zero.mp (by omega)
                rw [hs]
                exact hE0
            · rw [if_neg hlast] at hok ⊢
              have htodo1 : todo ≠ [] := by
                intro h
                rw [h] at hlen
                simp only [List.length_cons, List.length_nil] at hlast hlen
                omega
              have := hnext (done ++ [c]) todo (by rw [← hm]; simp) htodo1
                (List.suffix_refl _)
                (fun s h => by rw [List.append_assoc, List.singleton_append]; exact h)
              rw [List.length_append, List.length_singleton] at this
              exact this hok
          · have hne : ¬ some t0 = some c := fun h => hmatch (Option.some.inj h).symm
            rw [if_neg hne] at hok ⊢
            simp only [List.getElem?_cons_zero] at hok ⊢
            by_cases h0 : c = m0
            · rw [if_pos (by rw [h0])] at hok ⊢
              have htl : tl ≠ [] := by
                intro h
                rw [h] at hm
                cases done with
                | nil =>
                  simp only [List.nil_append, List.cons.injEq] at hm
                  exact hmatch (h0.trans hm.1.symm)
                | cons d done =>
                  simp only [List.cons_append, List.cons.injEq] at hm
                  have := congrArg List.length hm.2
                  simp at this
              have := hnext [m0] tl rfl htl ⟨done, by rw [h0]⟩
                (fun s h => by
                  have := (occurs_shift m0 tl done todo t0 c hm hfirst hmatch s).mp h
                  rw [h0] at this
                  exact this)
              simp only [List.length_singleton] at this
              exact this hok
            · rw [if_neg (fun h => h0 (Option.some.inj h).symm)] at hok ⊢
              have := hnext [] (m0 :: tl) rfl (List.cons_ne_nil _ _) ⟨done ++ [c], by simp⟩
                (fun s h => by
                  have h1 := (occurs_shift m0 tl done todo t0 c hm hfirst hmatch s).mp h
                  exact (occurs_skip m0 tl c h0 s).mp h1)
              simp only [List.length_nil] at this
              exact this hok

/-- C19: for every magic whose first byte does not occur again in it, the
detector returns Acknowledged exactly when the delivered bytes contain the
magic contiguously with no cancel character up to the end of that appearance;
and then it returns at the poll that delivers the last byte of the first
appearance: the bytes consumed end with the magic, hold no cancel character,
contain the magic in no shorter initial part, and all later polls are left
unmade. -/
theorem c19_returns_at_first_appearance (m0 : Byte) (tl : List Byte)
    (polls : List (Option Byte)) (hfirst : m0 ∉ tl) :
    ((check_ack (m0 :: tl) polls).1 = .ACK_OK ↔
      magic_before_cancel (m0 :: tl) (pending polls)) ∧
    ((check_ack (m0 :: tl) polls).1 = .ACK_OK →
      ∃ (consumed : List (Option Byte)) (last : Byte),
        polls = consumed ++ some last :: (check_ack (m0 :: tl) polls).2 ∧
        no_cancel (pending consumed ++ [last]) ∧
        (m0 :: tl) <:+ pending consumed ++ [last] ∧
        ∀ s t, pending consumed ++ [last] = s ++ t → t ≠ [] → ¬ (m0 :: tl) <:+: s) := by
  have hc := check_ack_loop_spec m0 tl hfirst polls [] (m0 :: tl) rfl (List.cons_ne_nil _ _)
    (fun x hx => absurd hx (List.not_mem_nil x))
  simp only [List.length_nil, List.nil_append] at hc
  refine ⟨hc.1, ?_⟩
  intro hok
  have h := check_ack_loop_returns_at_first m0 tl hfirst polls [] (m0 :: tl) rfl
    (List.cons_ne_nil _ _) hok
  simp only [List.length_nil, List.nil_append] at h
  exact h

theorem c19_witness :
    ∃ (consumed : List (Option Byte)) (last : Byte),
      none :: some 5 :: (ack_polls ++ [none, some 7])
        = consumed ++ some last
            :: (check_ack sample.SFL_MAGIC_ACK (none :: some 5 :: (ack_polls ++ [none, some 7]))).2 ∧
      no_cancel (pending consumed ++ [last]) :=
  have h := (c19_returns_at_first_appearance 122
    [54, 73, 72, 71, 55, 99, 89, 68, 73, 68, 54, 111, 10]
    (none :: some 5 :: (ack_polls ++ [none, some 7])) (by decide)).2 (by decide)
  match h with
  | ⟨consumed, last, h1, h2, _, _⟩ => ⟨consumed, last, h1, h2⟩

/-! ## Booting from flash -/

theorem flashboot_rejected (cfg : Config) (fc : FlashConfig) (w : World)
    (h : header_length fc w < 32 ∨ header_length fc w > 4 * 1024 * 1024) :
    flashboot cfg fc w
      = .returned { rx := w.rx, mem := w.mem,
                    trace := w.trace ++ [.printf .booting_from_flash,
                      .printf (.invalid_length (header_length fc w))] } := by
  have h1 : load_word fc w.mem fc.FLASH_BOOT_ADDRESS < 32
      ∨ load_word fc w.mem fc.FLASH_BOOT_ADDRESS > 4 * 1024 * 1024 := h
  unfold flashboot
  simp only [printf, World.emit]
  rw [if_pos h1]
  simp [header_length]

theorem flashboot_checked (cfg : Config) (fc : FlashConfig) (w : World)
    (hlo : 32 ≤ header_length fc w) (hhi : header_length fc w ≤ 4 * 1024 * 1024) :
    flashboot cfg fc w
      = if header_crc fc w
            ≠ fc.crc32 ((List.range (header_length fc w)).map
                (fun i => (relocated fc w).mem (FIRMWARE_BASE_ADDRESS fc + i))) then
          .returned (printf (.crc_failed (header_crc fc w)
            (fc.crc32 ((List.range (header_length fc w)).map
                (fun i => (relocated fc w).mem (FIRMWARE_BASE_ADDRESS fc + i)))))
            ((relocated fc w).emit (.crc32 (FIRMWARE_BASE_ADDRESS fc) (header_length fc w))))
        else
          .handoff (boot cfg 0 0 0 (FIRMWARE_BASE_ADDRESS fc)
            ((relocated fc w).emit (.crc32 (FIRMWARE_BASE_ADDRESS fc) (header_length fc w)))) := by
  have h1 : ¬ (load_word fc w.mem fc.FLASH_BOOT_ADDRESS < 32
      ∨ load_word fc w.mem fc.FLASH_BOOT_ADDRESS > 4 * 1024 * 1024) := by
    unfold header_length at hlo hhi
    omega
  unfold flashboot
  simp only [printf, World.emit]
  rw [if_neg h1]
  cases hb : fc.MAIN_RAM_BASE <;>
    simp [relocated, header_length, header_crc, hb, printf, World.emit]

/-- The bytes `crc32` is computed over are those of the image in flash. -/
theorem relocated_image (fc : FlashConfig) (w : World) :
    (List.range (header_length fc w)).map
        (fun i => (relocated fc w).mem (FIRMWARE_BASE_ADDRESS fc + i))
      = flash_image fc w := by
  unfold flash_image
  apply List.map_congr_left
  intro i hi
  have hi1 : i < header_length fc w := List.mem_range.mp hi
  cases hb : fc.MAIN_RAM_BASE with
  | none =>
    simp only [relocated, FIRMWARE_BASE_ADDRESS, hb, printf, World.emit]
  | some base =>
    simp only [relocated, FIRMWARE_BASE_ADDRESS, hb, printf, World.emit, memcpy]
    rw [if_pos ⟨by omega, by omega⟩]
    congr 1
    omega

theorem relocated_observed (fc : FlashConfig) (w : World) :
    (relocated fc w).rx = w.rx ∧ handoffs (relocated fc w).trace = handoffs w.trace ∧
    stores (relocated fc w).trace = stores w.trace := by
  cases hb : fc.MAIN_RAM_BASE <;>
    simp [relocated, hb, printf, World.emit, memcpy, handoffs, stores, List.filterMap_append]

/-- C11: when the length word of the flash header is below 32 or above
4*1024*1024, `flashboot` prints its banner and the invalid-length diagnostic
and returns: memory is unchanged and the trace gains these two diagnostics
only, so no `memcpy`, no `crc32` and no handoff takes place.  When the length
word lies between 32 and 4*1024*1024, bounds included, the length check passes
and `crc32` is called on that many bytes. -/
theorem c11_bad_length_rejected (cfg : Config) (fc : FlashConfig) (w : World) :
    (header_length fc w < 32 ∨ header_length fc w > 4 * 1024 * 1024 →
      flashboot cfg fc w
        = .returned { rx := w.rx, mem := w.mem,
                      trace := w.trace ++ [.printf .booting_from_flash,
                        .printf (.invalid_length (header_length fc w))] }) ∧
    (32 ≤ header_length fc w → header_length fc w ≤ 4 * 1024 * 1024 →
      Event.crc32 (FIRMWARE_BASE_ADDRESS fc) (header_length fc w)
        ∈ (flashboot cfg fc w).world.trace) := by
  refine ⟨flashboot_rejected cfg fc w, ?_⟩
  intro hlo hhi
  rw [flashboot_checked cfg fc w hlo hhi]
  split_ifs
  · simp [FlashStep.world, printf, World.emit]
  · simp only [FlashStep.world]
    rw [boot_trace]
    simp [World.emit]

theorem c11_witness :
    header_length flash_sample (flash_world 16 0) = 16 ∧
    header_length flash_sample (flash_world 5000000 0) = 5000000 ∧
    (flashboot sample flash_sample (flash_world 16 0)).world.trace
      = [.printf .booting_from_flash, .printf (.invalid_length 16)] ∧
    (flashboot sample flash_sample (flash_world 5000000 0)).world.trace
      = [.printf .booting_from_flash, .printf (.invalid_length 5000000)] ∧
    Event.crc32 0x40000000 32 ∈ (flashboot sample flash_sample (flash_world 32 0)).world.trace ∧
    Event.crc32 0x40000000 (4 * 1024 * 1024)
      ∈ (flashboot sample flash_sample (flash_world (4 * 1024 * 1024) 0)).world.trace := by
  have h16 : header_length flash_sample (flash_world 16 0) = 16 := by decide
  have h5m : header_length flash_sample (flash_world 5000000 0) = 5000000 := by decide
  have h32 : header_length flash_sample (flash_world 32 0) = 32 := by decide
  have h4m : header_length flash_sample (flash_world (4 * 1024 * 1024) 0) = 4 * 1024 * 1024 := by
    decide
  have a := (c11_bad_length_rejected sample flash_sample (flash_world 16 0)).1
    (by rw [h16]; decide)
  have b := (c11_bad_length_rejected sample flash_sample (flash_world 5000000 0)).1
    (by rw [h5m]; decide)
  have c := (c11_bad_length_rejected sample flash_sample (flash_world 32 0)).2
    (by rw [h32]) (by rw [h32]; decide)
  have d := (c11_bad_length_rejected sample flash_sample (flash_world (4 * 1024 * 1024) 0)).2
    (by rw [h4m]; decide) (by rw [h4m])
  rw [h32] at c
  rw [h4m] at d
  refine ⟨h16, h5m, ?_, ?_, c, d⟩
  · rw [a, h16]
    rfl
  · rw [b, h5m]
    rfl

/-- C12: when the length word lies between 32 and 4*1024*1024, `flashboot`
calls `crc32` on exactly that many bytes at the firmware base address, which
hold the image stored in flash (copied to main memory when there is one), and
it hands over, to the firmware base address with three zero arguments, exactly
when the result equals the checksum word of the header; otherwise it returns
after the diagnostic, with no trampoline call. -/
theorem c12_handoff_iff_checksum (cfg : Config) (fc : FlashConfig) (w : World)
    (hlo : 32 ≤ header_length fc w) (hhi : header_length fc w ≤ 4 * 1024 * 1024) :
    (List.range (header_length fc w)).map
        (fun i => (relocated fc w).mem (FIRMWARE_BASE_ADDRESS fc + i)) = flash_image fc w ∧
    (header_crc fc w = fc.crc32 (flash_image fc w) →
      ∃ w', flashboot cfg fc w = .handoff w' ∧
        w'.trace.getLast? = some (.boot_helper 0 0 0 (FIRMWARE_BASE_ADDRESS fc)) ∧
        handoffs w'.trace = handoffs w.trace ++ [(0, 0, 0, FIRMWARE_BASE_ADDRESS fc)] ∧
        Event.crc32 (FIRMWARE_BASE_ADDRESS fc) (header_length fc w) ∈ w'.trace ∧
        w'.mem = (relocated fc w).mem) ∧
    (header_crc fc w ≠ fc.crc32 (flash_image fc w) →
      ∃ w', flashboot cfg fc w = .returned w' ∧
        w'.trace.getLast?
          = some (.printf (.crc_failed (header_crc fc w) (fc.crc32 (flash_image fc w)))) ∧
        handoffs w'.trace = handoffs w.trace ∧
        Event.crc32 (FIRMWARE_BASE_ADDRESS fc) (header_length fc w) ∈ w'.trace) := by
  have himg := relocated_image fc w
  have hrun := flashboot_checked cfg fc w hlo hhi
  rw [himg] at hrun
  have hobs := (relocated_observed fc w).2.1
  refine ⟨himg, ?_, ?_⟩
  · intro heq
    rw [if_neg (fun h => h heq)] at hrun
    refine ⟨_, hrun, ?_, ?_, ?_, ?_⟩
    · rw [boot_trace, List.getLast?_append]
      rfl
    · rw [(boot_observed _ _ _ _ _ _).2.2]
      simp only [handoffs] at hobs
      simp [World.emit, handoffs, List.filterMap_append, hobs]
    · rw [boot_trace]
      simp [World.emit]
    · rw [(boot_rest _ _ _ _ _ _).2]
      rfl
  · intro hne
    rw [if_pos hne] at hrun
    refine ⟨_, hrun, ?_, ?_, ?_⟩
    · simp [printf, World.emit]
    · simp only [handoffs] at hobs
      simp [printf, World.emit, handoffs, List.filterMap_append, hobs]
    · simp [printf, World.emit]

theorem c12_witness :
    (∃ w', flashboot sample flash_sample (flash_world 32 32) = .handoff w' ∧
      handoffs w'.trace = [(0, 0, 0, 0x40000000)]) ∧
    (∃ w', flashboot sample flash_sample (flash_world 32 33) = .returned w' ∧
      handoffs w'.trace = []) := by
  have hl : header_length flash_sample (flash_world 32 32) = 32 := by decide
  have hl2 : header_length flash_sample (flash_world 32 33) = 32 := by decide
  have a := (c12_handoff_iff_checksum sample flash_sample (flash_world 32 32)
    (by rw [hl]) (by rw [hl]; decide)).2.1 (by decide)
  have b := (c12_handoff_iff_checksum sample flash_sample (flash_world 32 33)
    (by rw [hl2]) (by rw [hl2]; decide)).2.2 (by decide)
  obtain ⟨w1, a1, _, a3, _⟩ := a
  obtain ⟨w2, b1, _, b3, _⟩ := b
  exact ⟨⟨w1, a1, a3⟩, ⟨w2, b1, b3⟩⟩

/-! ## Diagnostics before a return -/

/-- C17, as stated, fails: under `sample`, when a checksum-valid Abort frame
follows the acknowledged handshake, `serialboot` returns 1 having printed its
two banner lines only; its last action is the success acknowledgment. -/
theorem c17_abort_prints_nothing :
    good_abort.crc_ok sample ∧ good_abort.cmd = sample.SFL_CMD_ABORT ∧
    (serialboot sample frame0 ack_polls (world0 good_abort.wire)).ret = some 1 ∧
    prints (serialboot sample frame0 ack_polls (world0 good_abort.wire)).world.trace
      = [.booting_from_serial, .press_q_or_esc] ∧
    (serialboot sample frame0 ack_polls (world0 good_abort.wire)).world.trace.getLast?
      = some (.uart_write 75) := by
  decide

/-- C17, amended: the last action before `serialboot` returns is the
diagnostic "Timeout" on a handshake timeout, "Cancelled" on a cancelled
handshake and "Too many consecutive errors, aborting" at the failure limit;
the last action before `flashboot` returns is the invalid-length diagnostic on
a bad length and the CRC-failed diagnostic on a checksum mismatch.  On a
checksum-valid Abort frame `serialboot` returns after the success
acknowledgment, with no diagnostic. -/
theorem c17_diagnostic_before_return (cfg : Config) (fc : FlashConfig) :
    (∀ (frame : Frame) (polls : List (Option Byte)) (w : World),
      (check_ack cfg.SFL_MAGIC_ACK polls).1 = .ACK_TIMEOUT →
      (serialboot cfg frame polls w).ret = some 1 ∧
      (serialboot cfg frame polls w).world.trace.getLast? = some (.printf .timeout)) ∧
    (∀ (frame : Frame) (polls : List (Option Byte)) (w : World),
      (check_ack cfg.SFL_MAGIC_ACK polls).1 = .ACK_CANCELLED →
      (serialboot cfg frame polls w).ret = some 0 ∧
      (serialboot cfg frame polls w).world.trace.getLast? = some (.printf .cancelled)) ∧
    (∀ (failed : Nat) (frame : Frame) (w : World) (p : Packet) (rest : List Byte),
      w.rx = p.wire ++ rest → p.data.length < 256 → p.failing cfg →
      failed + 1 = MAX_FAILED →
      loop_body cfg failed frame w
        = .returned 1 { rx := rest, mem := w.mem,
                        trace := w.trace ++ [.printf .too_many_errors] }) ∧
    (∀ (failed : Nat) (frame : Frame) (w : World) (p : Packet) (rest : List Byte),
      w.rx = p.wire ++ rest → p.data.length < 256 → p.crc_ok cfg →
      p.cmd = cfg.SFL_CMD_ABORT →
      loop_body cfg failed frame w
        = .returned 1 { rx := rest, mem := w.mem,
                        trace := w.trace ++ [.uart_write cfg.SFL_ACK_SUCCESS] }) ∧
    (∀ (w : World), header_length fc w < 32 ∨ header_length fc w > 4 * 1024 * 1024 →
      ∃ w', flashboot cfg fc w = .returned w' ∧
        w'.trace.getLast? = some (.printf (.invalid_length (header_length fc w)))) ∧
    (∀ (w : World), 32 ≤ header_length fc w → header_length fc w ≤ 4 * 1024 * 1024 →
      header_crc fc w ≠ fc.crc32 (flash_image fc w) →
      ∃ w', flashboot cfg fc w = .returned w' ∧
        w'.trace.getLast?
          = some (.printf (.crc_failed (header_crc fc w) (fc.crc32 (flash_image fc w))))) := by
  refine ⟨?_, ?_, ?_, ?_, ?_, ?_⟩
  · intro frame polls w h
    rw [serialboot_unfold, h]
    simp [Step.ret, Step.world]
  · intro frame polls w h
    rw [serialboot_unfold, h]
    simp [Step.ret, Step.world]
  · intro failed frame w p rest hrx hlen hf hm
    rw [failing_step cfg failed frame w p rest hrx hlen hf, if_pos hm]
  · intro failed frame w p rest hrx hlen hcrc hcmd
    rw [loop_body_wire cfg failed frame w p rest hrx hlen,
      dispatch_crc_ok cfg failed frame _ p hlen hcrc, if_pos hcmd]
    simp [uart_write, World.emit]
  · intro w h
    refine ⟨_, flashboot_rejected cfg fc w h, ?_⟩
    simp
  · intro w hlo hhi hne
    have hrun := flashboot_checked cfg fc w hlo hhi
    rw [relocated_image fc w, if_pos hne] at hrun
    refine ⟨_, hrun, ?_⟩
    simp [printf, World.emit]

theorem c17_witness :
    (serialboot sample frame0 [none, some 5] (world0 [])).world.trace.getLast?
      = some (.printf .timeout) ∧
    (∃ w', flashboot sample flash_sample (flash_world 16 0) = .returned w' ∧
      w'.trace.getLast? = some (.printf (.invalid_length 16))) := by
  have h := c17_diagnostic_before_return sample flash_sample
  have hl : header_length flash_sample (flash_world 16 0) = 16 := by decide
  have a := (h.1 frame0 [none, some 5] (world0 []) (by decide)).2
  have b := h.2.2.2.2.1 (flash_world 16 0) (by rw [hl]; decide)
  rw [hl] at b
  exact ⟨a, b⟩

/-! ## The values `serialboot` returns -/

theorem dispatch_ret_one (cfg : Config) (failed : Nat) (frame : Frame) (w : World) (r : Int)
    (h : (dispatch cfg failed frame w).ret = some r) : r = 1 := by
  unfold dispatch at h
  simp only at h
  split_ifs at h <;> simp [Step.ret] at h <;> exact h.symm

theorem loop_body_ret_one (cfg : Config) (failed : Nat) (frame : Frame) (w : World) (r : Int)
    (h : (loop_body cfg failed frame w).ret = some r) : r = 1 := by
  unfold loop_body at h
  cases hg : grab_frame frame w with
  | none => rw [hg] at h; simp [Step.ret] at h
  | some fw =>
    obtain ⟨fr, w1⟩ := fw
    rw [hg] at h
    exact dispatch_ret_one cfg failed fr w1 r h

/-- The frame loop returns no value other than 1. -/
theorem frame_loop_ret_one (cfg : Config) :
    ∀ (n failed : Nat) (frame : Frame) (w : World) (r : Int),
      (frame_loop cfg n failed frame w).ret = some r → r = 1 := by
  intro n
  induction n with
  | zero =>
    intro failed frame w r h
    simp [frame_loop, Step.ret] at h
  | succ n ih =>
    intro failed frame w r h
    simp only [frame_loop] at h
    cases hb : loop_body cfg failed frame w with
    | running f1 fr1 w1 =>
      rw [hb] at h
      exact ih f1 fr1 w1 r h
    | returned r1 w1 =>
      rw [hb] at h
      have := loop_body_ret_one cfg failed frame w r1 (by rw [hb]; rfl)
      simp only [Step.ret, Option.some.injEq] at h
      rw [← h]
      exact this
    | handoff w1 => rw [hb] at h; simp [Step.ret] at h
    | stalled w1 => rw [hb] at h; simp [Step.ret] at h

/-- The function `serialboot` returns 0 exactly when the handshake is
cancelled. -/
theorem serialboot_ret_zero (cfg : Config) (frame : Frame) (polls : List (Option Byte))
    (w : World) :
    (serialboot cfg frame polls w).ret = some 0 ↔
      (check_ack cfg.SFL_MAGIC_ACK polls).1 = .ACK_CANCELLED := by
  rw [serialboot_unfold]
  cases hs : (check_ack cfg.SFL_MAGIC_ACK polls).1 with
  | ACK_TIMEOUT => simp [Step.ret]
  | ACK_CANCELLED => simp [Step.ret]
  | ACK_OK =>
    simp only
    constructor
    · intro h
      have := frame_loop_ret_one cfg _ 0 frame _ 0 h
      exact absurd this (by decide)
    · intro h
      exact AckStatus.noConfusion h

/-- C2, amended: a checksum-valid Abort frame makes `serialboot` send the
success acknowledgment and return 1, leaving memory as it was; 1 is also what
a failing frame returns when it brings the failure counter to `MAX_FAILED`;
and `serialboot` returns 0 exactly when the handshake is cancelled. -/
theorem c2_abort_returns_one (cfg : Config) (failed : Nat) (frame : Frame) (w : World)
    (p : Packet) (rest : List Byte) (hrx : w.rx = p.wire ++ rest)
    (hlen : p.data.length < 256) (hcrc : p.crc_ok cfg) (hcmd : p.cmd = cfg.SFL_CMD_ABORT) :
    loop_body cfg failed frame w
      = .returned 1 { rx := rest, mem := w.mem,
                      trace := w.trace ++ [.uart_write cfg.SFL_ACK_SUCCESS] } ∧
    (∀ (frame1 : Frame) (w1 : World) (q : Packet) (rest1 : List Byte),
      w1.rx = q.wire ++ rest1 → q.data.length < 256 → q.failing cfg →
      (loop_body cfg (MAX_FAILED - 1) frame1 w1).ret = some 1) ∧
    (∀ (frame1 : Frame) (polls : List (Option Byte)) (w1 : World),
      (serialboot cfg frame1 polls w1).ret = some 0 ↔
        (check_ack cfg.SFL_MAGIC_ACK polls).1 = .ACK_CANCELLED) ∧
    (∀ (n failed1 : Nat) (frame1 : Frame) (w1 : World) (r : Int),
      (frame_loop cfg n failed1 frame1 w1).ret = some r → r = 1) := by
  refine ⟨?_, ?_, ?_, ?_⟩
  · rw [loop_body_wire cfg failed frame w p rest hrx hlen,
      dispatch_crc_ok cfg failed frame _ p hlen hcrc]
    simp [hcmd, uart_write, World.emit]
  · intro frame1 w1 q rest1 hq hqlen hfail
    rw [failing_step cfg _ frame1 w1 q rest1 hq hqlen hfail, if_pos (by decide)]
    rfl
  · intro frame1 polls w1
    exact serialboot_ret_zero cfg frame1 polls w1
  · exact frame_loop_ret_one cfg

theorem c2_witness :
    (loop_body sample 0 frame0 (world0 (good_abort.wire ++ [9]))).ret = some 1 := by
  have h := (c2_abort_returns_one sample 0 frame0 (world0 (good_abort.wire ++ [9])) good_abort [9]
    rfl (by decide) (by decide) (by decide)).1
  rw [h]
  rfl

/-! ## What a frame makes `serialboot` send -/

theorem load_loop_prints (cfg : Config) (payload : Nat → Byte) :
    ∀ (n i wp : Nat) (w : World),
      prints (load_loop cfg payload n i wp w).trace = prints w.trace := by
  intro n
  induction n with
  | zero => intro i wp w; rfl
  | succ n ih =>
    intro i wp w
    simp only [load_loop]
    rw [ih]
    simp [poke, prints, List.filterMap_append]

theorem boot_prints (cfg : Config) (r1 r2 r3 addr : Nat) (w : World) :
    prints (boot cfg r1 r2 r3 addr w).trace = prints w.trace ++ [.executing addr, .liftoff] := by
  rw [boot_trace]
  cases cfg.vexriscv <;> cases cfg.l2_cache <;> simp [prints, List.filterMap_append]

theorem dispatch_sent (cfg : Config) (failed : Nat) (frame : Frame) (w : World) (p : Packet)
    (hlen : p.data.length < 256) (hlim : ¬ (p.failing cfg ∧ failed + 1 = MAX_FAILED)) :
    sent (dispatch cfg failed (p.into frame) w).world.trace
      = sent w.trace ++ [expected_ack cfg p] := by
  by_cases hc : p.crc_ok cfg
  · rw [dispatch_crc_ok cfg failed frame _ p hlen hc]
    by_cases h1 : p.cmd = cfg.SFL_CMD_ABORT
    · have hu : ¬ p.unknown cfg := fun h => h.1 h1
      rw [if_pos h1]
      simp [hc, hu, expected_ack, Step.world, uart_write, World.emit, sent,
        List.filterMap_append]
    · by_cases h2 : p.cmd = cfg.SFL_CMD_LOAD
      · have hu : ¬ p.unknown cfg := fun h => h.2.1 h2
        rw [if_neg h1, if_pos h2]
        simp only [Step.world, uart_write, World.emit]
        have hs := (load_loop_sent cfg (p.into frame).payload (p.data.length - 4) 4
          (decode_addr cfg (p.into frame).payload) w).1
        simp only [sent] at hs
        simp [hc, hu, expected_ack, sent, List.filterMap_append, hs]
      · by_cases h3 : p.cmd = cfg.SFL_CMD_JUMP
        · have hu : ¬ p.unknown cfg := fun h => h.2.2 h3
          rw [if_neg h1, if_neg h2, if_pos h3]
          simp only [Step.world]
          rw [(boot_observed _ _ _ _ _ _).1]
          simp [hc, hu, expected_ack, sent, List.filterMap_append, uart_write, World.emit]
        · have hu : p.unknown cfg := ⟨h1, h2, h3⟩
          have h : ¬ failed + 1 = MAX_FAILED := fun h => hlim ⟨Or.inr hu, h⟩
          rw [if_neg h1, if_neg h2, if_neg h3, if_neg h]
          simp [hc, hu, expected_ack, Step.world, uart_write, World.emit, sent,
            List.filterMap_append]
  · have h : ¬ failed + 1 = MAX_FAILED := fun h => hlim ⟨Or.inl hc, h⟩
    rw [dispatch_crc_mismatch cfg failed frame _ p hlen hc, if_neg h]
    simp [hc, expected_ack, Step.world, uart_write, World.emit, sent, List.filterMap_append]

theorem dispatch_prints (cfg : Config) (failed : Nat) (frame : Frame) (w : World) (p : Packet)
    (hlen : p.data.length < 256) (hlim : ¬ (p.failing cfg ∧ failed + 1 = MAX_FAILED)) :
    (p.crc_ok cfg ∧ p.cmd ≠ cfg.SFL_CMD_ABORT ∧ p.cmd ≠ cfg.SFL_CMD_LOAD
        ∧ p.cmd = cfg.SFL_CMD_JUMP →
      prints (dispatch cfg failed (p.into frame) w).world.trace
        = prints w.trace ++ [.executing (decode_addr cfg (p.into frame).payload), .liftoff]) ∧
    (¬ (p.crc_ok cfg ∧ p.cmd ≠ cfg.SFL_CMD_ABORT ∧ p.cmd ≠ cfg.SFL_CMD_LOAD
        ∧ p.cmd = cfg.SFL_CMD_JUMP) →
      prints (dispatch cfg failed (p.into frame) w).world.trace = prints w.trace) := by
  by_cases hc : p.crc_ok cfg
  · rw [dispatch_crc_ok cfg failed frame _ p hlen hc]
    by_cases h1 : p.cmd = cfg.SFL_CMD_ABORT
    · rw [if_pos h1]
      refine ⟨fun h => absurd h1 h.2.1, fun _ => ?_⟩
      simp [Step.world, uart_write, World.emit, prints, List.filterMap_append]
    · by_cases h2 : p.cmd = cfg.SFL_CMD_LOAD
      · rw [if_neg h1, if_pos h2]
        refine ⟨fun h => absurd h2 h.2.2.1, fun _ => ?_⟩
        simp only [Step.world, uart_write, World.emit]
        have hs := load_loop_prints cfg (p.into frame).payload (p.data.length - 4) 4
          (decode_addr cfg (p.into frame).payload) w
        simp only [prints] at hs
        simp [prints, List.filterMap_append, hs]
      · by_cases h3 : p.cmd = cfg.SFL_CMD_JUMP
        · rw [if_neg h1, if_neg h2, if_pos h3]
          refine ⟨fun _ => ?_, fun h => absurd ⟨hc, h1, h2, h3⟩ h⟩
          simp only [Step.world]
          rw [boot_prints]
          simp [prints, List.filterMap_append, uart_write, World.emit]
        · have hu : p.unknown cfg := ⟨h1, h2, h3⟩
          have h : ¬ failed + 1 = MAX_FAILED := fun h => hlim ⟨Or.inr hu, h⟩
          rw [if_neg h1, if_neg h2, if_neg h3, if_neg h]
          refine ⟨fun h => absurd h.2.2.2 h3, fun _ => ?_⟩
          simp [Step.world, uart_write, World.emit, prints, List.filterMap_append]
  · have h : ¬ failed + 1 = MAX_FAILED := fun h => hlim ⟨Or.inl hc, h⟩
    rw [dispatch_crc_mismatch cfg failed frame _ p hlen hc, if_neg h]
    refine ⟨fun h => absurd h.1 hc, fun _ => ?_⟩
    simp [Step.world, uart_write, World.emit, prints, List.filterMap_append]

/-- C10, as stated, fails: under `sample`, the frame with a wrong checksum
that brings the failure counter from 4 to `MAX_FAILED` makes `serialboot`
print the diagnostic "Too many consecutive errors, aborting" before it
returns, so that it does send something, though no acknowledgment byte. -/
theorem c10_limit_frame_prints_diagnostic :
    ¬ bad_load.crc_ok sample ∧
    (loop_body sample 4 frame0 (world0 bad_load.wire)).ret = some 1 ∧
    (loop_body sample 4 frame0 (world0 bad_load.wire)).world.trace
      = [.printf .too_many_errors] ∧
    prints (loop_body sample 4 frame0 (world0 bad_load.wire)).world.trace ≠ [] := by
  decide

/-- C10, amended: every frame the loop processes makes `serialboot` pass
exactly one acknowledgment byte to `uart_write`, namely CrcError on a checksum
mismatch, UnknownCommand for a checksum-valid frame with an unrecognized
command and Success for a checksum-valid Abort, Load or Jump, and print no
diagnostic, apart from the two lines the handoff of a valid Jump prints after
the acknowledgment.  The only exception is a failing frame that brings the
failure counter to `MAX_FAILED`: then no acknowledgment byte is sent, the one
action before `serialboot` returns 1 being the diagnostic
"Too many consecutive errors, aborting". -/
theorem c10_one_ack_per_frame (cfg : Config) (failed : Nat) (frame : Frame) (w : World)
    (p : Packet) (rest : List Byte) (hrx : w.rx = p.wire ++ rest)
    (hlen : p.data.length < 256) :
    (p.failing cfg ∧ failed + 1 = MAX_FAILED →
      loop_body cfg failed frame w
        = .returned 1 { rx := rest, mem := w.mem,
                        trace := w.trace ++ [.printf .too_many_errors] } ∧
      sent (loop_body cfg failed frame w).world.trace = sent w.trace ∧
      prints (loop_body cfg failed frame w).world.trace
        = prints w.trace ++ [.too_many_errors]) ∧
    (¬ (p.failing cfg ∧ failed + 1 = MAX_FAILED) →
      sent (loop_body cfg failed frame w).world.trace
        = sent w.trace ++ [expected_ack cfg p] ∧
      (p.crc_ok cfg ∧ p.cmd ≠ cfg.SFL_CMD_ABORT ∧ p.cmd ≠ cfg.SFL_CMD_LOAD
          ∧ p.cmd = cfg.SFL_CMD_JUMP →
        prints (loop_body cfg failed frame w).world.trace
          = prints w.trace
            ++ [.executing (decode_addr cfg (p.into frame).payload), .liftoff]) ∧
      (¬ (p.crc_ok cfg ∧ p.cmd ≠ cfg.SFL_CMD_ABORT ∧ p.cmd ≠ cfg.SFL_CMD_LOAD
          ∧ p.cmd = cfg.SFL_CMD_JUMP) →
        prints (loop_body cfg failed frame w).world.trace = prints w.trace)) := by
  constructor
  · rintro ⟨hf, hm⟩
    rw [failing_step cfg failed frame w p rest hrx hlen hf, if_pos hm]
    refine ⟨rfl, ?_, ?_⟩
    · simp [Step.world, sent, List.filterMap_append]
    · simp [Step.world, prints, List.filterMap_append]
  · intro hlim
    rw [loop_body_wire cfg failed frame w p rest hrx hlen]
    have h1 := dispatch_sent cfg failed frame { w with rx := rest } p hlen hlim
    have h2 := dispatch_prints cfg failed frame { w with rx := rest } p hlen hlim
    exact ⟨h1, h2.1, h2.2⟩

theorem c10_witness :
    sent (loop_body sample 0 frame0 (world0 (good_unknown.wire ++ [5]))).world.trace = [85] ∧
    loop_body sample 4 frame0 (world0 (good_unknown.wire ++ [5]))
      = .returned 1 { rx := [5], mem := (world0 (good_unknown.wire ++ [5])).mem,
                      trace := [.printf .too_many_errors] } :=
  ⟨((c10_one_ack_per_frame sample 0 frame0 (world0 (good_unknown.wire ++ [5])) good_unknown [5]
      rfl (by decide)).2 (by decide)).1,
   ((c10_one_ack_per_frame sample 4 frame0 (world0 (good_unknown.wire ++ [5])) good_unknown [5]
      rfl (by decide)).1 (by decide)).1⟩

/-! ## Magics the restart rule does not serve -/

/-- A magic that holds a cancel character is never acknowledged. -/
theorem cancel_in_magic_never_acknowledged (m0 : Byte) (tl : List Byte)
    (polls : List (Option Byte)) (h : ¬ no_cancel (m0 :: tl)) :
    (check_ack (m0 :: tl) polls).1 ≠ .ACK_OK := by
  intro hok
  have hs := (check_ack_loop_sound (m0 :: tl) polls [] (m0 :: tl) rfl
    (List.cons_ne_nil _ _)).1 hok
  obtain ⟨s, t, _, hnc, pre, post, hin⟩ := hs
  apply h
  intro c hc
  apply hnc c
  have hmem : c ∈ pre ++ (m0 :: tl) ++ post :=
    List.mem_append_left _ (List.mem_append_right _ hc)
  rw [hin] at hmem
  simpa using hmem

/-- Bytes that continue the magic without completing it move the detector
forward by their number. -/
theorem check_ack_loop_advance (str : List Byte) :
    ∀ (u : List Byte) (polls : List (Option Byte)) (done todo v : List Byte),
      done ++ (u ++ todo) = str → todo ≠ [] → no_cancel u → pending polls = u ++ v →
      ∃ later, pending later = v ∧
        check_ack_loop str done.length polls
          = check_ack_loop str (done.length + u.length) later := by
  intro u
  induction u with
  | nil =>
    intro polls done todo v _ _ _ hp
    exact ⟨polls, by simpa using hp, rfl⟩
  | cons c u ih =>
    intro polls done todo v hm htodo hnc hp
    obtain ⟨polls1, hp1, h1⟩ := check_ack_loop_next_byte str polls c (u ++ v)
      (by simpa using hp)
    have hcan : ¬ (c = 81 ∨ c = 27) := hnc c (List.mem_cons_self _ _)
    have hidx : str[done.length]? = some c := by
      rw [← hm, List.getElem?_append_right (le_refl _)]
      simp
    have hlast : ¬ done.length + 1 = str.length := by
      have := congrArg List.length hm
      simp only [List.length_append, List.length_cons] at this
      have h2 : 0 < todo.length := List.length_pos.mpr htodo
      omega
    obtain ⟨later, hl, hr⟩ := ih polls1 (done ++ [c]) todo v (by rw [← hm]; simp) htodo
      (fun x hx => hnc x (List.mem_cons_of_mem _ hx)) hp1
    refine ⟨later, hl, ?_⟩
    rw [h1 done.length, check_ack_loop, if_neg hcan, if_pos hidx, if_neg hlast]
    rw [List.length_append, List.length_singleton] at hr
    rw [hr, List.length_cons]
    congr 1
    omega

/-- A magic that starts with two or more copies of its first byte, followed by
a different byte, is not acknowledged when its first byte is delivered once
more in front of it. -/
theorem doubled_first_not_acknowledged (m0 x : Byte) (run rest : List Byte)
    (polls : List (Option Byte)) (hrun : ∀ y ∈ run, y = m0) (hx : x ≠ m0)
    (hnc : no_cancel (m0 :: m0 :: (run ++ x :: rest)))
    (hp : pending polls = m0 :: m0 :: m0 :: (run ++ x :: rest)) :
    (check_ack (m0 :: m0 :: (run ++ x :: rest)) polls).1 ≠ .ACK_OK := by
  have hshift : m0 :: m0 :: m0 :: (run ++ x :: rest)
      = (m0 :: m0 :: run) ++ (m0 :: x :: rest) := by
    have h := doubled_first_all_equal m0 run hrun
    have h1 : m0 :: run = run ++ [m0] := by
      simp only [List.cons_append, List.cons.injEq, true_and] at h
      exact h
    calc m0 :: m0 :: m0 :: (run ++ x :: rest)
        = m0 :: m0 :: ((m0 :: run) ++ x :: rest) := rfl
      _ = m0 :: m0 :: ((run ++ [m0]) ++ x :: rest) := by rw [h1]
      _ = (m0 :: m0 :: run) ++ (m0 :: x :: rest) := by simp
  have hncu : no_cancel (m0 :: m0 :: run) := by
    intro c hc
    apply hnc c
    simp only [List.mem_cons, List.mem_append] at hc ⊢
    tauto
  have hcan0 : ¬ (m0 = 81 ∨ m0 = 27) := hnc m0 (List.mem_cons_self _ _)
  have hcanx : ¬ (x = 81 ∨ x = 27) := by
    apply hnc x
    simp
  obtain ⟨later, hl, hr⟩ := check_ack_loop_advance (m0 :: m0 :: (run ++ x :: rest))
    (m0 :: m0 :: run) polls [] (x :: rest) (m0 :: x :: rest) (by simp) (List.cons_ne_nil _ _)
    hncu (by rw [hp, hshift])
  obtain ⟨later1, hl1, hr1⟩ := check_ack_loop_next_byte (m0 :: m0 :: (run ++ x :: rest))
    later m0 (x :: rest) hl
  obtain ⟨later2, hl2, hr2⟩ := check_ack_loop_next_byte (m0 :: m0 :: (run ++ x :: rest))
    later1 x rest hl1
  have hidx : (m0 :: m0 :: (run ++ x :: rest))[0 + (m0 :: m0 :: run).length]? = some x := by
    have : m0 :: m0 :: (run ++ x :: rest) = (m0 :: m0 :: run) ++ x :: rest := by simp
    rw [this, Nat.zero_add, List.getElem?_append_right (le_refl _)]
    simp
  have hstep : check_ack_loop (m0 :: m0 :: (run ++ x :: rest)) 0 polls
      = check_ack_loop (m0 :: m0 :: (run ++ x :: rest)) 0 later2 := by
    have hr' : check_ack_loop (m0 :: m0 :: (run ++ x :: rest)) 0 polls
        = check_ack_loop (m0 :: m0 :: (run ++ x :: rest)) (0 + (m0 :: m0 :: run).length)
            later := hr
    rw [hr', hr1, check_ack_loop, if_neg hcan0, hidx,
      if_neg (fun h => hx (Option.some.inj h)), if_pos (by simp)]
    rw [hr2 1, check_ack_loop, if_neg hcanx,
      if_neg (by simp; exact fun h => hx h.symm),
      if_neg (by simp; exact fun h => hx h.symm)]
  intro hok
  unfold check_ack at hok
  rw [hstep] at hok
  have hs := (check_ack_loop_sound (m0 :: m0 :: (run ++ x :: rest)) later2 []
    (m0 :: m0 :: (run ++ x :: rest)) rfl (List.cons_ne_nil _ _)).1 hok
  obtain ⟨s, t, hst, _, hin⟩ := hs
  have h1 := hin.length_le
  have h2 := congrArg List.length hst
  rw [hl2] at h2
  simp only [List.length_append, List.length_cons, List.nil_append] at h1 h2
  omega

end Boot
